import Mathlib

/-!
faviconurl: a shallow embedding of `internal/faviconurl.go`

The Go program discovers favicon URLs for a web address.  This file embeds
its functions as Lean definitions and proves properties of them.

Conventions of the embedding

* Go strings are Lean `String`s; Go `int` is `Int`.
* `*url.URL` values are records of type `URL` with the fields of the
  standard library type.  A Go function that mutates a URL through a
  pointer returns the new value of that URL.
* The standard library and the network are parameters: `url.Parse` is a
  function `String → Option URL` (`none` is a parse error), `(*URL).String`
  is a function `URL → String`, `client.Get` is a function on an explicit
  world state, `json.Unmarshal` and `html.Parse` are functions on strings.
* A Go function returning `(value, error)` returns a record or pair of
  options, as in Go, so that "no value is returned with an error" is a
  statement to prove and not a consequence of the type.
* The unbounded `for` loop of `fetchUrl` takes a fuel argument counting the
  requests it may issue; running out of fuel is the outcome `Run.diverge`.
-/

namespace Faviconurl

/-! ## Data model -/

/-- The `url.Userinfo` record of the Go standard library. -/
structure Userinfo where
  username : String := ""
  password : String := ""
  passwordSet : Bool := false
deriving DecidableEq, Repr

/-- The `url.URL` record of the Go standard library, field by field. -/
structure URL where
  Scheme : String := ""
  Opaque : String := ""
  User : Option Userinfo := none
  Host : String := ""
  Path : String := ""
  RawPath : String := ""
  OmitHost : Bool := false
  ForceQuery : Bool := false
  RawQuery : String := ""
  Fragment : String := ""
  RawFragment : String := ""
deriving DecidableEq, Repr

/-- The record `HtmlLink` of `manifest.go`; the Go field `Type` is `Typ`. -/
structure HtmlLink where
  Typ : String
  Href : URL
deriving DecidableEq, Repr

/-- The record `ManifestIcon` of `manifest.go`; the Go field `Type` is `Typ`. -/
structure ManifestIcon where
  Src : String := ""
  Sizes : String := ""
  Typ : String := ""
deriving DecidableEq, Repr

/-- The record `Manifest` of `manifest.go`. -/
structure Manifest where
  Icons : List ManifestIcon := []
deriving DecidableEq, Repr

/-- The node kinds `html.NodeType` of `golang.org/x/net/html`. -/
inductive NodeType where
  | ErrorNode
  | TextNode
  | DocumentNode
  | ElementNode
  | CommentNode
  | DoctypeNode
  | RawNode
deriving DecidableEq, Repr

/-- The record `html.Attribute`. -/
structure Attribute where
  Namespace : String := ""
  Key : String
  Val : String
deriving DecidableEq, Repr

/-- A node of an HTML tree (`html.Node`): its kind, its `Data` (the tag name
of an element), its attributes, and its children from `FirstChild` along
`NextSibling`. -/
inductive Node where
  | mk (kind : NodeType) (Data : String) (Attr : List Attribute) (children : List Node)
deriving Repr

/-- The field `Type` of a node. -/
def Node.kind : Node → NodeType
  | .mk k _ _ _ => k

/-- The field `Data` of a node. -/
def Node.Data : Node → String
  | .mk _ d _ _ => d

/-- The field `Attr` of a node. -/
def Node.Attr : Node → List Attribute
  | .mk _ _ a _ => a

/-- The children of a node, first to last. -/
def Node.children : Node → List Node
  | .mk _ _ _ cs => cs

/-- The package variable `IconAttributeValues`. -/
def IconAttributeValues : List String :=
  ["icon", "apple-touch-icon", "apple-touch-icon-precomposed"]

/-! ## String helpers of the Go standard library -/

/-- The test `strings.HasPrefix(s, p)`. -/
def startsWith (s p : String) : Bool :=
  p.data.isPrefixOf s.data

/-- Splitting a character list at every occurrence of `sep`; `n` occurrences
give `n + 1` pieces, and the empty list gives one empty piece. -/
def splitChars (sep : Char) : List Char → List (List Char)
  | [] => [[]]
  | c :: cs =>
    if c = sep then [] :: splitChars sep cs
    else
      match splitChars sep cs with
      | [] => [[c]]
      | t :: ts => (c :: t) :: ts

/-- The call `strings.Split(s, sep)` for a one-character separator. -/
def stringsSplit (s : String) (sep : Char) : List String :=
  (splitChars sep s.data).map String.mk

/-! ## resolveUrl -/

/-- The two URL objects that `resolveUrl` holds pointers to. -/
structure ResolveStore where
  src : URL
  new : URL
deriving DecidableEq, Repr

/-- The body of `resolveUrl(src, new)` on the store of its two arguments,
one update per Go assignment.  At every call site the two pointers are
distinct objects. -/
def resolveUrlStore (s0 : ResolveStore) : ResolveStore :=
  let s1 :=
    if !(startsWith s0.new.Path "/") then
      { s0 with new := { s0.new with Path := s0.src.Path ++ "/" ++ s0.new.Path } }
    else s0
  let s2 :=
    if s1.new.Scheme = "" then
      { s1 with new := { s1.new with Scheme := s1.src.Scheme } }
    else s1
  let s3 :=
    if s2.new.Host = "" then
      { s2 with new := { s2.new with Host := s2.src.Host } }
    else s2
  s3

/-- The value of `*new` after `resolveUrl(src, new)`. -/
def resolveUrl (src new : URL) : URL :=
  (resolveUrlStore { src := src, new := new }).new

/-! ## Classification of `<link>` and `<meta>` elements -/

/-- The inner loop of `newHtmlLinkFromLinkNode` over `IconAttributeValues`
for one token `value`: the first match sets the type to `icon` and breaks. -/
def expectedLoop (value : String) : List String → String → String
  | [], linkRelType => linkRelType
  | expected :: rest, linkRelType =>
    if value ≠ expected then expectedLoop value rest linkRelType
    else "icon"

/-- The loop of `newHtmlLinkFromLinkNode` over the tokens of a `rel` value. -/
def valuesLoop : List String → String → String
  | [], linkRelType => linkRelType
  | value :: rest, linkRelType =>
    valuesLoop rest (expectedLoop value IconAttributeValues linkRelType)

/-- The `switch value` of the `rel` case: the new `linkRelType`. -/
def relSwitch (value : String) (linkRelType : String) : String :=
  if value = "canonical" then "canonical"
  else if value = "icon" then "icon"
  else if value = "manifest" then "manifest"
  else valuesLoop (stringsSplit value ' ') linkRelType

/-- The attribute loop of `newHtmlLinkFromLinkNode` on the locals
`linkRelType` and `hrefUrl`; `none` is the early `return nil` taken when an
`href` fails to parse. -/
def linkAttrLoop (parse : String → Option URL) :
    List Attribute → String → Option URL → Option (String × Option URL)
  | [], linkRelType, hrefUrl => some (linkRelType, hrefUrl)
  | attr :: rest, linkRelType, hrefUrl =>
    if attr.Key = "href" then
      match parse attr.Val with
      | none => none
      | some u => linkAttrLoop parse rest linkRelType (some u)
    else if attr.Key = "rel" then
      linkAttrLoop parse rest (relSwitch attr.Val linkRelType) hrefUrl
    else linkAttrLoop parse rest linkRelType hrefUrl

/-- The function `newHtmlLinkFromLinkNode`; `none` is the Go `nil`. -/
def newHtmlLinkFromLinkNode (parse : String → Option URL) (node : Node) : Option HtmlLink :=
  match linkAttrLoop parse node.Attr "" none with
  | none => none
  | some (linkRelType, hrefUrl) =>
    match hrefUrl with
    | none => none
    | some u => if linkRelType = "" then none else some { Typ := linkRelType, Href := u }

/-- The attribute loop of `newHtmlLinkFromMetaNode` on the locals `imageTag`
and `hrefUrl`; `none` is an early `return nil`. -/
def metaAttrLoop (parse : String → Option URL) :
    List Attribute → Bool → Option URL → Option (Bool × Option URL)
  | [], imageTag, hrefUrl => some (imageTag, hrefUrl)
  | attr :: rest, imageTag, hrefUrl =>
    if attr.Key = "content" then
      match parse attr.Val with
      | none => none
      | some u => metaAttrLoop parse rest imageTag (some u)
    else if attr.Key = "name" then
      if !(attr.Val = "og:image" || attr.Val = "twitter:image") then none
      else metaAttrLoop parse rest true hrefUrl
    else metaAttrLoop parse rest imageTag hrefUrl

/-- The function `newHtmlLinkFromMetaNode`; `none` is the Go `nil`. -/
def newHtmlLinkFromMetaNode (parse : String → Option URL) (node : Node) : Option HtmlLink :=
  match metaAttrLoop parse node.Attr false none with
  | none => none
  | some (imageTag, hrefUrl) =>
    match hrefUrl with
    | none => none
    | some u => if !imageTag then none else some { Typ := "icon", Href := u }

/-! ## getLinks -/

/-- The `switch node.Data` of `getLinks` followed by the `nil` test: the list
returned for a node that is a `link` or `meta` element. -/
def linkOfElement (parse : String → Option URL) (node : Node) : List HtmlLink :=
  let link :=
    if node.Data = "link" then newHtmlLinkFromLinkNode parse node
    else if node.Data = "meta" then newHtmlLinkFromMetaNode parse node
    else none
  match link with
  | none => []
  | some l => [l]

mutual
/-- The function `getLinks(u, node)`. -/
def getLinks (parse : String → Option URL) (u : URL) : Node → List HtmlLink
  | .mk kind data attr children =>
    if !(kind = NodeType.ElementNode && (data = "link" || data = "meta")) then
      getLinksChildren parse u children []
    else linkOfElement parse (.mk kind data attr children)
/-- The loop of `getLinks` over the children of a node, on the local `icons`. -/
def getLinksChildren (parse : String → Option URL) (u : URL) :
    List Node → List HtmlLink → List HtmlLink
  | [], icons => icons
  | c :: rest, icons =>
    let newIcons := getLinks parse u c
    if newIcons.length ≠ 0 then getLinksChildren parse u rest (icons ++ newIcons)
    else getLinksChildren parse u rest icons
end

/-- The test of `getLinks` for the nodes it classifies: an element whose tag
is `link` or `meta`. -/
def isLinkOrMeta (node : Node) : Bool :=
  node.kind = NodeType.ElementNode && (node.Data = "link" || node.Data = "meta")

/-- The classification of one node: the record of a `link` element, the
record of a `meta` element, nothing for any other node. -/
def classify (parse : String → Option URL) (node : Node) : Option HtmlLink :=
  if node.kind = NodeType.ElementNode ∧ node.Data = "link" then newHtmlLinkFromLinkNode parse node
  else if node.kind = NodeType.ElementNode ∧ node.Data = "meta" then
    newHtmlLinkFromMetaNode parse node
  else none

mutual
/-- Every node of a tree in document order (depth-first, pre-order). -/
def preorder : Node → List Node
  | .mk kind data attr children => .mk kind data attr children :: preorderList children
/-- The nodes of a forest in document order. -/
def preorderList : List Node → List Node
  | [] => []
  | c :: rest => preorder c ++ preorderList rest
end

mutual
/-- The nodes of a tree in document order, leaving out everything that lies
below a `link` or `meta` element. -/
def visited : Node → List Node
  | .mk kind data attr children =>
    if kind = NodeType.ElementNode && (data = "link" || data = "meta") then
      [.mk kind data attr children]
    else .mk kind data attr children :: visitedList children
/-- The nodes of a forest in document order, leaving out everything that
lies below a `link` or `meta` element. -/
def visitedList : List Node → List Node
  | [] => []
  | c :: rest => visited c ++ visitedList rest
end

mutual
/-- No `link` or `meta` element of the tree has a child. -/
def voidLeaves : Node → Bool
  | .mk kind data _ children =>
    if kind = NodeType.ElementNode && (data = "link" || data = "meta") then children.isEmpty
    else voidLeavesList children
/-- No `link` or `meta` element of the forest has a child. -/
def voidLeavesList : List Node → Bool
  | [] => true
  | c :: rest => voidLeaves c && voidLeavesList rest
end

/-! ## The network and the remaining library -/

/-- A Go `(value, error)` result of a library call whose error is kept only
as its message. -/
inductive Res (α : Type) where
  | ok (v : α)
  | error (msg : String)
deriving DecidableEq, Repr

/-- The errors the program builds or passes on, with the values formatted
into their messages. -/
inductive Error where
  | transport (msg : String)
  | emptyLocation (location status : String) (code : Int)
  | invalidStatus (url status : String) (code : Int)
  | invalidUrl
  | unsupportedScheme
  | parseNewUrl (newUrl : String)
  | unexpectedContentType (contentType : String)
  | readBody (msg : String)
  | htmlParse (msg : String)
  | unmarshal (msg : String)
deriving DecidableEq, Repr

/-- The part of `http.Response` the program reads: `Status`, `StatusCode`,
the values of `Header.Get("Location")` and `Header.Get("content-type")`, and
the result of `ioutil.ReadAll(resp.Body)`. -/
structure Response where
  Status : String := ""
  StatusCode : Int
  Location : String := ""
  ContentType : String := ""
  Body : Res String := Res.ok ""
deriving DecidableEq, Repr

/-- The constant `http.StatusOK`. -/
abbrev StatusOK : Int := 200

/-- The constant `http.StatusMultipleChoices`. -/
abbrev StatusMultipleChoices : Int := 300

/-- The constant `http.StatusBadRequest`. -/
abbrev StatusBadRequest : Int := 400

/-- The standard library and the network, as the program uses them, over a
world state `σ` that a request may read and change. -/
structure Lib (σ : Type) where
  /-- The function `url.Parse`. -/
  Parse : String → Option URL
  /-- The method `(*URL).String`. -/
  str : URL → String
  /-- The method `(*URL).Parse`, which parses relative to its receiver. -/
  ParseRef : URL → String → Option URL
  /-- The call `client.Get` of the client of `newHttpClient`, which does not
  follow redirects. -/
  Get : σ → String → Res Response × σ
  /-- The call `json.Unmarshal` into a `Manifest`. -/
  Unmarshal : String → Res Manifest
  /-- The call `html.Parse`. -/
  HtmlParse : String → Res Node

/-- The outcome of running a function that may loop for ever or hit a nil
pointer. -/
inductive Run (α : Type) where
  | diverge
  | panic
  | ret (v : α)
deriving DecidableEq, Repr

/-! ## fetchUrl -/

/-- The three results `(url, resp, err)` of `fetchUrl`. -/
structure FetchResult where
  url : String
  resp : Option Response
  err : Option Error
deriving DecidableEq, Repr

/-- How one pass through the body of the loop of `fetchUrl` ends. -/
inductive Iter where
  | next (url : String)
  | done (r : FetchResult)
deriving DecidableEq, Repr

/-- One pass through the body of the `for` loop of `fetchUrl`. -/
def fetchUrlIter {σ : Type} (get : σ → String → Res Response × σ) (w : σ) (url : String) :
    Iter × σ :=
  match get w url with
  | (Res.error msg, w1) => (Iter.done { url := url, resp := none, err := some (Error.transport msg) }, w1)
  | (Res.ok resp, w1) =>
    let statusCode := resp.StatusCode
    if statusCode ≥ StatusMultipleChoices ∧ statusCode < StatusBadRequest then
      let location := resp.Location
      if location = "" then
        (Iter.done { url := url, resp := none,
                     err := some (Error.emptyLocation location resp.Status resp.StatusCode) }, w1)
      else (Iter.next location, w1)
    else if resp.StatusCode < StatusOK ∨ resp.StatusCode > StatusMultipleChoices then
      (Iter.done { url := url, resp := none,
                   err := some (Error.invalidStatus url resp.Status resp.StatusCode) }, w1)
    else (Iter.done { url := url, resp := some resp, err := none }, w1)

/-- The function `fetchUrl`, with `fuel` bounding the number of requests. -/
def fetchUrl {σ : Type} (get : σ → String → Res Response × σ) : Nat → σ → String →
    Run (FetchResult × σ)
  | 0, _, _ => Run.diverge
  | fuel + 1, w, url =>
    match fetchUrlIter get w url with
    | (Iter.next location, w1) => fetchUrl get fuel w1 location
    | (Iter.done r, w1) => Run.ret (r, w1)

/-! ## parseArg -/

/-- The function `parseArg`, returning the pair `(url, err)`. -/
def parseArg (parse : String → Option URL) (arg : String) : Option URL × Option Error :=
  match parse arg with
  | none => (none, some Error.invalidUrl)
  | some u =>
    if u.Scheme ≠ "http" ∧ u.Scheme ≠ "https" then
      if u.Scheme ≠ "" then (none, some Error.unsupportedScheme)
      else
        let u1 := { u with Scheme := "https" }
        if u1.Host = "" ∧ u1.Path.length ≠ 0 then (some { u1 with Host := u1.Path, Path := "" }, none)
        else (some u1, none)
    else
      if u.Host = "" ∧ u.Path.length ≠ 0 then (some { u with Host := u.Path, Path := "" }, none)
      else (some u, none)

/-! ## Manifest icons and the dispatch on a link -/

/-- The loop of `fetchFaviconFromManifest` over `manifest.Icons`, on the
local `favicons`. -/
def manifestIconLoop (parse : String → Option URL) (str : URL → String) (u : URL) :
    List ManifestIcon → List String → List String
  | [], favicons => favicons
  | icon :: rest, favicons =>
    match parse icon.Src with
    | none => manifestIconLoop parse str u rest favicons
    | some srcUrl => manifestIconLoop parse str u rest (favicons ++ [str (resolveUrl u srcUrl)])

/-- The function `fetchFaviconFromManifest`, returning `(favicons, err)`;
the nil slice is the empty list. -/
def fetchFaviconFromManifest {σ : Type} (lib : Lib σ) (fuel : Nat) (w : σ) (u : URL) :
    Run ((List String × Option Error) × σ) :=
  match fetchUrl lib.Get fuel w (lib.str u) with
  | Run.diverge => Run.diverge
  | Run.panic => Run.panic
  | Run.ret (r, w1) =>
    match r.err with
    | some e => Run.ret (([], some e), w1)
    | none =>
      match r.resp with
      | none => Run.panic
      | some resp =>
        match stringsSplit resp.ContentType ';' with
        | [] => Run.panic
        | contentType0 :: _ =>
          if contentType0 ≠ "application/json" then
            Run.ret (([], some (Error.unexpectedContentType contentType0)), w1)
          else
            match resp.Body with
            | Res.error msg => Run.ret (([], some (Error.readBody msg)), w1)
            | Res.ok body =>
              match lib.Unmarshal body with
              | Res.error msg => Run.ret (([], some (Error.unmarshal msg)), w1)
              | Res.ok manifest =>
                Run.ret ((manifestIconLoop lib.Parse lib.str u manifest.Icons [], none), w1)

/-- The function `parseFavIconsFromLinks(u, link)`: the returned list and the
world after it. -/
def parseFavIconsFromLinks {σ : Type} (lib : Lib σ) (fuel : Nat) (w : σ) (u : URL)
    (link : HtmlLink) : Run (List String × σ) :=
  let href := resolveUrl u link.Href
  if link.Typ = "icon" then Run.ret ([lib.str href], w)
  else if link.Typ = "manifest" then
    match fetchFaviconFromManifest lib fuel w href with
    | Run.diverge => Run.diverge
    | Run.panic => Run.panic
    | Run.ret ((favicons, err), w1) =>
      match err with
      | some _ => Run.ret ([], w1)
      | none => Run.ret (favicons, w1)
  else Run.ret ([], w)

/-! ## fetchAll -/

/-- The first loop of `fetchAll` over `linksFromUrl` (the canonical pass):
the working URL `redirectUrl` after it, and the links with the targets the
loop has resolved in place. -/
def canonicalLoop (str : URL → String) : List HtmlLink → URL → URL × List HtmlLink
  | [], redirectUrl => (redirectUrl, [])
  | link :: rest, redirectUrl =>
    if link.Typ ≠ "canonical" then
      let out := canonicalLoop str rest redirectUrl
      (out.1, link :: out.2)
    else if str link.Href ≠ str redirectUrl then
      let href := resolveUrl redirectUrl link.Href
      let out := canonicalLoop str rest { redirectUrl with Host := href.Host }
      (out.1, { link with Href := href } :: out.2)
    else
      let out := canonicalLoop str rest redirectUrl
      (out.1, link :: out.2)

/-- The second loop of `fetchAll` over `linksFromUrl`, on the local
`favicons`. -/
def faviconsLoop {σ : Type} (lib : Lib σ) (fuel : Nat) (redirectUrl : URL) :
    List HtmlLink → List String → σ → Run (List String × σ)
  | [], favicons, w => Run.ret (favicons, w)
  | link :: rest, favicons, w =>
    match parseFavIconsFromLinks lib fuel w redirectUrl link with
    | Run.diverge => Run.diverge
    | Run.panic => Run.panic
    | Run.ret (faviconsFromLinks, w1) =>
      faviconsLoop lib fuel redirectUrl rest (favicons ++ faviconsFromLinks) w1

/-- The function `fetchFaviconFromDomainRoot`, returning `(favicon, err)`. -/
def fetchFaviconFromDomainRoot {σ : Type} (lib : Lib σ) (fuel : Nat) (w : σ) (url : URL) :
    Run ((String × Option Error) × σ) :=
  let faviconUrl := url.Scheme ++ "://" ++ url.Host ++ "/favicon.ico"
  match fetchUrl lib.Get fuel w faviconUrl with
  | Run.diverge => Run.diverge
  | Run.panic => Run.panic
  | Run.ret (r, w1) =>
    match r.err with
    | some e => Run.ret (("", some e), w1)
    | none =>
      match r.resp with
      | none => Run.panic
      | some _ => Run.ret ((faviconUrl, none), w1)

/-- The results of `fetchLinksFromUrl(url)`: the links, the error, and the
value of `*url` when it returns. -/
structure LinksResult where
  links : List HtmlLink
  err : Option Error
  url : URL
deriving DecidableEq, Repr

/-- The function `fetchLinksFromUrl`. -/
def fetchLinksFromUrl {σ : Type} (lib : Lib σ) (fuel : Nat) (w : σ) (url : URL) :
    Run (LinksResult × σ) :=
  match fetchUrl lib.Get fuel w (lib.str url) with
  | Run.diverge => Run.diverge
  | Run.panic => Run.panic
  | Run.ret (r, w1) =>
    match r.err with
    | some e => Run.ret ({ links := [], err := some e, url := url }, w1)
    | none =>
      match r.resp with
      | none => Run.panic
      | some resp =>
        let parsed : Option URL :=
          if lib.str url ≠ r.url then lib.ParseRef url r.url else some url
        match parsed with
        | none => Run.ret ({ links := [], err := some (Error.parseNewUrl r.url), url := url }, w1)
        | some url1 =>
          match stringsSplit resp.ContentType ';' with
          | [] => Run.panic
          | contentType0 :: _ =>
            if contentType0 ≠ "text/html" then
              Run.ret ({ links := [], err := some (Error.unexpectedContentType contentType0),
                         url := url1 }, w1)
            else
              match resp.Body with
              | Res.error msg =>
                Run.ret ({ links := [], err := some (Error.readBody msg), url := url1 }, w1)
              | Res.ok htmlContent =>
                match lib.HtmlParse htmlContent with
                | Res.error msg =>
                  Run.ret ({ links := [], err := some (Error.htmlParse msg), url := url1 }, w1)
                | Res.ok doc =>
                  Run.ret ({ links := getLinks lib.Parse url1 doc, err := none, url := url1 }, w1)

/-- What `fetchAll` leaves behind: its returned error, the working URL
`redirectUrl`, the list `favicons`, and the lines written to standard
output. -/
structure FetchAllResult where
  err : Option Error
  redirectUrl : URL
  favicons : List String
  stdout : List String
deriving DecidableEq, Repr

/-- The numbered lines `fetchAll` prints for its icons, from number `i`. -/
def numbered : Nat → List String → List String
  | _, [] => []
  | i, favicon :: rest => (toString i ++ ". " ++ favicon) :: numbered (i + 1) rest

/-- The end of `fetchAll`, from the domain-root fetch on. -/
def fetchAllTail {σ : Type} (lib : Lib σ) (fuel : Nat) (originalUrl redirectUrl : URL)
    (favicons : List String) (w : σ) : Run (FetchAllResult × σ) :=
  match fetchFaviconFromDomainRoot lib fuel w redirectUrl with
  | Run.diverge => Run.diverge
  | Run.panic => Run.panic
  | Run.ret ((favicon, err), w1) =>
    let favicons1 :=
      match err with
      | some _ => favicons
      | none => favicons ++ [favicon]
    let head :=
      if lib.str originalUrl = lib.str redirectUrl then lib.str originalUrl
      else lib.str originalUrl ++ " -> " ++ lib.str redirectUrl
    Run.ret ({ err := none, redirectUrl := redirectUrl, favicons := favicons1,
               stdout := head :: numbered 1 favicons1 }, w1)

/-- The function `fetchAll`.  When `url.Parse(originalUrl.String())` fails
the working URL is a nil pointer and `fetchLinksFromUrl` dereferences it. -/
def fetchAll {σ : Type} (lib : Lib σ) (fuel : Nat) (w : σ) (originalUrl : URL) :
    Run (FetchAllResult × σ) :=
  match lib.Parse (lib.str originalUrl) with
  | none => Run.panic
  | some redirectUrl0 =>
    match fetchLinksFromUrl lib fuel w redirectUrl0 with
    | Run.diverge => Run.diverge
    | Run.panic => Run.panic
    | Run.ret (lr, w1) =>
      match lr.err with
      | some _ => fetchAllTail lib fuel originalUrl lr.url [] w1
      | none =>
        let out := canonicalLoop lib.str lr.links lr.url
        match faviconsLoop lib fuel out.1 out.2 [] w1 with
        | Run.diverge => Run.diverge
        | Run.panic => Run.panic
        | Run.ret (favicons, w2) => fetchAllTail lib fuel originalUrl out.1 favicons w2

/-! ## Notions used to state the properties -/

/-- The values of the attributes of `attrs` whose key is `key`, in order. -/
def attrVals (key : String) (attrs : List Attribute) : List String :=
  (attrs.filter (fun a => a.Key = key)).map (fun a => a.Val)

/-- The kind the specification gives to a `rel` value: `canonical` and
`manifest` for exactly these values, `icon` for exactly `icon` or when a
token of the value split on single spaces is one of `IconAttributeValues`,
and none otherwise. -/
def relKind (rel : String) : Option String :=
  if rel = "canonical" then some "canonical"
  else if rel = "manifest" then some "manifest"
  else if rel = "icon" ∨ ∃ t ∈ stringsSplit rel ' ', t ∈ IconAttributeValues then some "icon"
  else none

/-- The record the specification gives to a `<link>` element with the one
`rel` value `rel` and the one `href` value `href`. -/
def linkRecord (parse : String → Option URL) (rel href : String) : Option HtmlLink :=
  match parse href, relKind rel with
  | some u, some k => some { Typ := k, Href := u }
  | _, _ => none

/-- Starting in world `w` with URL `u0`, the requests of `fetchUrl` are
answered by redirects (status in [300,400), non-empty `Location`) to the
URLs `ls` in turn, so that the loop comes to request `u` in world `w1`. -/
def Reaches {σ : Type} (get : σ → String → Res Response × σ) :
    σ → String → List String → String → σ → Prop
  | w, u0, [], u, w1 => u = u0 ∧ w1 = w
  | w, u0, l :: ls, u, w1 =>
    ∃ r w2, get w u0 = (Res.ok r, w2) ∧ 300 ≤ r.StatusCode ∧ r.StatusCode < 400
      ∧ r.Location = l ∧ l ≠ "" ∧ Reaches get w2 l ls u w1

/-- The request for `u` in world `w1` ends the chain with the error `e` and
leaves the world `w2`: (a) a transport error, (b) a status in [300,400) with
an empty `Location`, or (c) a status outside [200,400). -/
def FailsAt {σ : Type} (get : σ → String → Res Response × σ) (w1 : σ) (u : String)
    (e : Error) (w2 : σ) : Prop :=
  (∃ msg, get w1 u = (Res.error msg, w2) ∧ e = Error.transport msg)
  ∨ (∃ r, get w1 u = (Res.ok r, w2) ∧ 300 ≤ r.StatusCode ∧ r.StatusCode < 400
      ∧ r.Location = "" ∧ e = Error.emptyLocation r.Location r.Status r.StatusCode)
  ∨ (∃ r, get w1 u = (Res.ok r, w2) ∧ (r.StatusCode < 200 ∨ 400 ≤ r.StatusCode)
      ∧ e = Error.invalidStatus u r.Status r.StatusCode)

/-- A URL with a scheme, a host, and a path that starts with `/`. -/
def Absolute (u : URL) : Prop :=
  u.Scheme ≠ "" ∧ u.Host ≠ "" ∧ startsWith u.Path "/" = true

/-- The domain-root candidate `{scheme}://{host}/favicon.ico` of a URL. -/
def rootUrl (u : URL) : String :=
  u.Scheme ++ "://" ++ u.Host ++ "/favicon.ico"

/-- The lists `parts` are, link by link and in order, the lists
`parseFavIconsFromLinks` returns for `links` against the working URL `u`,
the requests taking the world from `w` to `w2`. -/
def PartsOf {σ : Type} (lib : Lib σ) (fuel : Nat) (u : URL) :
    List HtmlLink → σ → List (List String) → σ → Prop
  | [], w, [], w2 => w2 = w
  | link :: rest, w, part :: parts, w2 =>
    ∃ w1, parseFavIconsFromLinks lib fuel w u link = Run.ret (part, w1)
      ∧ PartsOf lib fuel u rest w1 parts w2
  | [], _, _ :: _, _ => False
  | _ :: _, _, [], _ => False

/-! ## Sample library values for concrete runs -/

/-- A sample network whose world counts the requests made: `http://a.com/x`
redirects to `https://a.com/r`, which redirects to `https://a.com/`, an HTML
page; `https://a.com/manifest.json` is a JSON document;
`https://a.com/favicon.ico` exists; `https://a.com/loop` redirects to
itself; `https://a.com/noloc` redirects nowhere; `https://a.com/gone` is
missing; `http://a.com/j` redirects to the JSON document;
`https://a.com/dup` is a second HTML page; any other request fails in
transport. -/
def sampleGet (w : Nat) (url : String) : Res Response × Nat :=
  if url = "http://a.com/x" then
    (Res.ok { Status := "301 Moved Permanently", StatusCode := 301,
              Location := "https://a.com/r" }, w + 1)
  else if url = "https://a.com/r" then
    (Res.ok { Status := "302 Found", StatusCode := 302, Location := "https://a.com/" }, w + 1)
  else if url = "https://a.com/" then
    (Res.ok { Status := "200 OK", StatusCode := 200, ContentType := "text/html; charset=utf-8",
              Body := Res.ok "page" }, w + 1)
  else if url = "https://a.com/manifest.json" then
    (Res.ok { Status := "200 OK", StatusCode := 200, ContentType := "application/json",
              Body := Res.ok "manifest" }, w + 1)
  else if url = "https://a.com/favicon.ico" then
    (Res.ok { Status := "200 OK", StatusCode := 200, ContentType := "image/x-icon" }, w + 1)
  else if url = "https://a.com/loop" then
    (Res.ok { Status := "301 Moved Permanently", StatusCode := 301,
              Location := "https://a.com/loop" }, w + 1)
  else if url = "https://a.com/noloc" then
    (Res.ok { Status := "302 Found", StatusCode := 302 }, w + 1)
  else if url = "https://a.com/gone" then
    (Res.ok { Status := "404 Not Found", StatusCode := 404 }, w + 1)
  else if url = "http://a.com/j" then
    (Res.ok { Status := "301 Moved Permanently", StatusCode := 301,
              Location := "https://a.com/manifest.json" }, w + 1)
  else if url = "https://a.com/dup" then
    (Res.ok { Status := "200 OK", StatusCode := 200, ContentType := "text/html",
              Body := Res.ok "dup" }, w + 1)
  else (Res.error "no such host", w + 1)

/-- A sample of `url.Parse`: the records the Go standard library returns
for a few strings, every other string being taken as unparseable. -/
def sampleParse (s : String) : Option URL :=
  if s = "/f.png" then some { Path := "/f.png" }
  else if s = "/g.png" then some { Path := "/g.png" }
  else if s = "/m1.png" then some { Path := "/m1.png" }
  else if s = "icon.png" then some { Path := "icon.png" }
  else if s = "/manifest.json" then some { Path := "/manifest.json" }
  else if s = "example.com" then some { Path := "example.com" }
  else if s = "https://a.com/" then some { Scheme := "https", Host := "a.com", Path := "/" }
  else if s = "https://b.com/" then some { Scheme := "https", Host := "b.com", Path := "/" }
  else if s = "http://a.com/x" then some { Scheme := "http", Host := "a.com", Path := "/x" }
  else if s = "ftp://example.com" then some { Scheme := "ftp", Host := "example.com" }
  else if s = "https://example.com" then some { Scheme := "https", Host := "example.com" }
  else if s = "https://a.com/gone" then
    some { Scheme := "https", Host := "a.com", Path := "/gone" }
  else if s = "https://a.com/manifest.json" then
    some { Scheme := "https", Host := "a.com", Path := "/manifest.json" }
  else if s = "http://a.com/j" then some { Scheme := "http", Host := "a.com", Path := "/j" }
  else if s = "https://c.com/" then some { Scheme := "https", Host := "c.com", Path := "/" }
  else if s = "https://a.com/loop" then
    some { Scheme := "https", Host := "a.com", Path := "/loop" }
  else if s = "https://a.com/dup" then
    some { Scheme := "https", Host := "a.com", Path := "/dup" }
  else if s = "/favicon.ico" then some { Path := "/favicon.ico" }
  else none

/-- A sample of `(*URL).String`: scheme, `://`, host and path written one
after the other, which is what the Go standard library returns for a URL
with a scheme and a host, no user, query or fragment, and a path that
starts with `/` and needs no escaping. -/
def sampleStr (u : URL) : String :=
  u.Scheme ++ "://" ++ u.Host ++ u.Path

/-- The element `<link href="icon.png" rel="shortcut apple-touch-icon">`. -/
def sampleLinkNode : Node :=
  Node.mk NodeType.ElementNode "link"
    [{ Key := "href", Val := "icon.png" }, { Key := "rel", Val := "shortcut apple-touch-icon" }] []

/-- The element `<meta name="og:image" content="/f.png" name="description">`. -/
def sampleMetaDup : Node :=
  Node.mk NodeType.ElementNode "meta"
    [{ Key := "name", Val := "og:image" }, { Key := "content", Val := "/f.png" },
     { Key := "name", Val := "description" }] []

/-- The element `<meta content="/f.png" name="twitter:image">`. -/
def sampleMeta : Node :=
  Node.mk NodeType.ElementNode "meta"
    [{ Key := "content", Val := "/f.png" }, { Key := "name", Val := "twitter:image" }] []

/-- A `<link rel="icon" href="/f.png">` element with the child
`<link rel="icon" href="/g.png">`. -/
def sampleNestedLink : Node :=
  Node.mk NodeType.ElementNode "link"
    [{ Key := "rel", Val := "icon" }, { Key := "href", Val := "/f.png" }]
    [Node.mk NodeType.ElementNode "link"
      [{ Key := "rel", Val := "icon" }, { Key := "href", Val := "/g.png" }] []]

/-- The tree `<html><head><link rel="icon" href="/f.png"><title>t</title>
<meta content="/g.png" name="og:image"></head></html>` under a document
node. -/
def sampleDoc : Node :=
  Node.mk NodeType.DocumentNode "" []
    [Node.mk NodeType.ElementNode "html" []
      [Node.mk NodeType.ElementNode "head" []
        [Node.mk NodeType.ElementNode "link"
           [{ Key := "rel", Val := "icon" }, { Key := "href", Val := "/f.png" }] [],
         Node.mk NodeType.ElementNode "title" [] [Node.mk NodeType.TextNode "t" [] []],
         Node.mk NodeType.ElementNode "meta"
           [{ Key := "content", Val := "/g.png" }, { Key := "name", Val := "og:image" }] []]]]

/-- A sample of `json.Unmarshal`: the body `manifest` decodes to a manifest
with the icons `/m1.png` and `%zz`, the second of which is no URL. -/
def sampleUnmarshal (body : String) : Res Manifest :=
  if body = "manifest" then Res.ok { Icons := [{ Src := "/m1.png" }, { Src := "%zz" }] }
  else Res.error "invalid character"

/-- The tree `<html><head><link rel="icon" href="/favicon.ico">
<link rel="shortcut icon" href="/favicon.ico"></head></html>` under a
document node. -/
def sampleDupDoc : Node :=
  Node.mk NodeType.DocumentNode "" []
    [Node.mk NodeType.ElementNode "html" []
      [Node.mk NodeType.ElementNode "head" []
        [Node.mk NodeType.ElementNode "link"
           [{ Key := "rel", Val := "icon" }, { Key := "href", Val := "/favicon.ico" }] [],
         Node.mk NodeType.ElementNode "link"
           [{ Key := "rel", Val := "shortcut icon" },
            { Key := "href", Val := "/favicon.ico" }] []]]]

/-- A sample of `html.Parse`: the body `page` is the document `sampleDoc`,
the body `dup` the document `sampleDupDoc`, any other body an empty
document. -/
def sampleHtmlParse (content : String) : Res Node :=
  if content = "page" then Res.ok sampleDoc
  else if content = "dup" then Res.ok sampleDupDoc
  else Res.ok (Node.mk NodeType.DocumentNode "" [] [])

/-- The sample library and network. -/
def sampleLib : Lib Nat where
  Parse := sampleParse
  str := sampleStr
  ParseRef := fun _ ref => sampleParse ref
  Get := sampleGet
  Unmarshal := sampleUnmarshal
  HtmlParse := sampleHtmlParse

/-- The page URL `https://a.com/`. -/
def pageA : URL := { Scheme := "https", Host := "a.com", Path := "/" }

/-- The page URL `https://a.com/dir`. -/
def pageDir : URL := { Scheme := "https", Host := "a.com", Path := "/dir" }

/-- The element `<link rel="icon" href="/f.png">`. -/
def iconLinkNode : Node :=
  Node.mk NodeType.ElementNode "link"
    [{ Key := "rel", Val := "icon" }, { Key := "href", Val := "/f.png" }] []

/-- The element `<link rel="apple-touch-icon" href="icon.png">`. -/
def touchLinkNode : Node :=
  Node.mk NodeType.ElementNode "link"
    [{ Key := "rel", Val := "apple-touch-icon" }, { Key := "href", Val := "icon.png" }] []

/-- The address `https://a.com/gone`, whose page is missing. -/
def addrGone : URL := { Scheme := "https", Host := "a.com", Path := "/gone" }

/-- The address `https://c.com/`, on a host that cannot be reached. -/
def addrC : URL := { Scheme := "https", Host := "c.com", Path := "/" }

/-- The address `http://a.com/x`, which is redirected to `https://a.com/`. -/
def addrX : URL := { Scheme := "http", Host := "a.com", Path := "/x" }

/-- The address `https://a.com/dup`, a page that names its icon twice. -/
def addrDup : URL := { Scheme := "https", Host := "a.com", Path := "/dup" }

/-- The address `http://a.com/j`, which is redirected to a JSON document. -/
def addrJ : URL := { Scheme := "http", Host := "a.com", Path := "/j" }

/-- The links of a page with `<link rel="canonical" href="https://b.com/">`
followed by `<link rel="icon" href="/f.png">`. -/
def canonicalLinks : List HtmlLink :=
  [{ Typ := "canonical", Href := { Scheme := "https", Host := "b.com", Path := "/" } },
   { Typ := "icon", Href := { Path := "/f.png" } }]

/-! ## Theorems -/

/-! ### resolveUrl -/

/-- The test `strings.HasPrefix(s, "/")` holds exactly when `s` is `"/"`
followed by some string. -/
theorem startsWith_slash_iff (s : String) :
    startsWith s "/" = true ↔ ∃ rest : String, s = "/" ++ rest := by
  unfold startsWith
  constructor
  · intro h
    have hp : "/".data <+: s.data := List.isPrefixOf_iff_prefix.mp h
    obtain ⟨t, ht⟩ := hp
    refine ⟨String.mk t, ?_⟩
    apply String.ext
    rw [String.data_append]
    exact ht.symm
  · rintro ⟨rest, rfl⟩
    rw [String.data_append]
    exact List.isPrefixOf_iff_prefix.mpr (List.prefix_append _ _)

/-- Values of `strings.Split` on single spaces: adjacent, leading and
trailing separators give empty tokens, and the empty string gives one empty
token. -/
theorem stringsSplit_values :
    stringsSplit "shortcut icon" ' ' = ["shortcut", "icon"]
    ∧ stringsSplit "a  b" ' ' = ["a", "", "b"]
    ∧ stringsSplit " a " ' ' = ["", "a", ""]
    ∧ stringsSplit "" ' ' = [""]
    ∧ stringsSplit "text/html; charset=utf-8" ';' = ["text/html", " charset=utf-8"] := by
  decide

/-- The reference after `resolveUrl`, component by component. -/
theorem resolveUrl_eq (src new : URL) :
    resolveUrl src new =
      { new with
        Path := if startsWith new.Path "/" then new.Path else src.Path ++ "/" ++ new.Path
        Scheme := if new.Scheme ≠ "" then new.Scheme else src.Scheme
        Host := if new.Host ≠ "" then new.Host else src.Host } := by
  unfold resolveUrl resolveUrlStore
  by_cases hp : startsWith new.Path "/" = true <;>
    by_cases hs : new.Scheme = "" <;>
    by_cases hh : new.Host = "" <;>
    simp [hp, hs, hh]

/-- The host after `resolveUrl`. -/
theorem resolveUrl_host (src new : URL) :
    (resolveUrl src new).Host = if new.Host ≠ "" then new.Host else src.Host := by
  rw [resolveUrl_eq]

/-- C1: for every base URL `src` and reference URL `new`, after
`resolveUrl(src, new)` the reference has path `new.Path` when that path
starts with `/` and the literal concatenation `src.Path ++ "/" ++ new.Path`
otherwise, scheme `new.Scheme` when non-empty and `src.Scheme` otherwise,
host `new.Host` when non-empty and `src.Host` otherwise, every other
component as before, and the base is unchanged. -/
theorem resolveUrl_components (src new : URL) :
    resolveUrl src new =
        { new with
          Path := if startsWith new.Path "/" then new.Path else src.Path ++ "/" ++ new.Path
          Scheme := if new.Scheme ≠ "" then new.Scheme else src.Scheme
          Host := if new.Host ≠ "" then new.Host else src.Host }
      ∧ (resolveUrlStore { src := src, new := new }).src = src := by
  refine ⟨resolveUrl_eq src new, ?_⟩
  unfold resolveUrlStore
  by_cases hp : startsWith new.Path "/" = true <;>
    by_cases hs : new.Scheme = "" <;>
    by_cases hh : new.Host = "" <;>
    simp [hp, hs, hh]

/-! ### newHtmlLinkFromLinkNode -/

/-- The inner loop sets `icon` exactly when the token is an expected value. -/
theorem expectedLoop_eq (value : String) (es : List String) (t : String) :
    expectedLoop value es t = if value ∈ es then "icon" else t := by
  induction es with
  | nil => simp [expectedLoop]
  | cons e rest ih =>
    unfold expectedLoop
    by_cases h : value = e
    · simp [h]
    · simp [h, ih]

/-- The token loop sets `icon` exactly when some token is an expected value. -/
theorem valuesLoop_eq (vs : List String) (t : String) :
    valuesLoop vs t = if ∃ v ∈ vs, v ∈ IconAttributeValues then "icon" else t := by
  induction vs generalizing t with
  | nil => simp [valuesLoop]
  | cons v rest ih =>
    unfold valuesLoop
    rw [ih, expectedLoop_eq]
    by_cases h1 : ∃ w ∈ rest, w ∈ IconAttributeValues
    · have h2 : ∃ w ∈ v :: rest, w ∈ IconAttributeValues := by
        obtain ⟨w, hw, hw2⟩ := h1
        exact ⟨w, List.mem_cons_of_mem _ hw, hw2⟩
      simp only [h1, h2, if_true]
    · by_cases h3 : v ∈ IconAttributeValues
      · have h2 : ∃ w ∈ v :: rest, w ∈ IconAttributeValues := ⟨v, List.mem_cons_self _ _, h3⟩
        simp only [h1, h2, h3, if_true, if_false]
      · have h2 : ¬ ∃ w ∈ v :: rest, w ∈ IconAttributeValues := by
          rintro ⟨w, hw, hw2⟩
          rcases List.mem_cons.mp hw with rfl | hw
          · exact h3 hw2
          · exact h1 ⟨w, hw, hw2⟩
        simp only [h1, h2, h3, if_false]

/-- From the empty type, the `rel` switch computes the kind of the
specification, with the empty string for no kind. -/
theorem relSwitch_empty (rel : String) : relSwitch rel "" = (relKind rel).getD "" := by
  unfold relSwitch relKind
  rw [valuesLoop_eq]
  by_cases h1 : rel = "canonical"
  · simp [h1]
  by_cases h2 : rel = "icon"
  · subst h2; simp
  by_cases h3 : rel = "manifest"
  · subst h3; simp
  by_cases h4 : ∃ v ∈ stringsSplit rel ' ', v ∈ IconAttributeValues
  · simp only [h1, h2, h3, h4, if_true, if_false, or_true, Option.getD_some]
  · simp only [h1, h2, h3, h4, if_false, or_self, Option.getD_none]

/-- A kind of the specification is never the empty string. -/
theorem relKind_ne_empty (rel k : String) (h : relKind rel = some k) : k ≠ "" := by
  unfold relKind at h
  split_ifs at h <;> (cases h; decide)

/-- The values of key `key` when the first attribute has that key. -/
theorem attrVals_cons_eq (key : String) (a : Attribute) (rest : List Attribute)
    (h : a.Key = key) : attrVals key (a :: rest) = a.Val :: attrVals key rest := by
  simp [attrVals, h]

/-- The values of key `key` when the first attribute has another key. -/
theorem attrVals_cons_ne (key : String) (a : Attribute) (rest : List Attribute)
    (h : ¬ a.Key = key) : attrVals key (a :: rest) = attrVals key rest := by
  simp [attrVals, h]

/-- The attribute loop of `newHtmlLinkFromLinkNode` on any attribute list:
it returns early exactly when some `href` value fails to parse, and
otherwise folds the `rel` values and keeps the last parsed `href`. -/
theorem linkAttrLoop_eq (parse : String → Option URL) (attrs : List Attribute)
    (t : String) (h : Option URL) :
    linkAttrLoop parse attrs t h =
      if (attrVals "href" attrs).all (fun v => (parse v).isSome) = true then
        some ((attrVals "rel" attrs).foldl (fun acc v => relSwitch v acc) t,
              (attrVals "href" attrs).foldl (fun acc v => (parse v).or acc) h)
      else none := by
  induction attrs generalizing t h with
  | nil => simp [linkAttrLoop, attrVals]
  | cons a rest ih =>
    unfold linkAttrLoop
    by_cases hk : a.Key = "href"
    · have hr : ¬ a.Key = "rel" := by rw [hk]; decide
      rw [attrVals_cons_eq "href" a rest hk, attrVals_cons_ne "rel" a rest hr]
      cases hp : parse a.Val with
      | none => simp [hk, hp]
      | some u =>
        simp only [hk, if_true]
        rw [ih]
        simp [hp]
    · by_cases hr : a.Key = "rel"
      · rw [attrVals_cons_ne "href" a rest hk, attrVals_cons_eq "rel" a rest hr]
        simp only [hk, hr, if_true, if_false]
        rw [ih]
        simp
      · rw [attrVals_cons_ne "href" a rest hk, attrVals_cons_ne "rel" a rest hr]
        simp only [hk, hr, if_false]
        rw [ih]

/-- The function on an element with exactly one `rel` and one `href`. -/
theorem newHtmlLinkFromLinkNode_one (parse : String → Option URL) (node : Node)
    (rel href : String) (hrel : attrVals "rel" node.Attr = [rel])
    (hhref : attrVals "href" node.Attr = [href]) :
    newHtmlLinkFromLinkNode parse node = linkRecord parse rel href := by
  unfold newHtmlLinkFromLinkNode linkRecord
  rw [linkAttrLoop_eq, hrel, hhref]
  cases hp : parse href with
  | none => simp [hp]
  | some u =>
    simp only [List.all_cons, List.all_nil, hp, Option.isSome_some, Bool.and_self, if_true,
      List.foldl_cons, List.foldl_nil, Option.or_some]
    rw [relSwitch_empty]
    cases hk : relKind rel with
    | none => simp
    | some k =>
      have := relKind_ne_empty rel k hk
      simp [this]

/-- The function on an element without `rel` or without `href`. -/
theorem newHtmlLinkFromLinkNode_missing (parse : String → Option URL) (node : Node)
    (h : attrVals "rel" node.Attr = [] ∨ attrVals "href" node.Attr = []) :
    newHtmlLinkFromLinkNode parse node = none := by
  unfold newHtmlLinkFromLinkNode
  rw [linkAttrLoop_eq]
  rcases h with h | h
  · rw [h]
    by_cases hc : (attrVals "href" node.Attr).all (fun v => (parse v).isSome) = true
    · simp only [hc, if_true, List.foldl_nil]
      cases List.foldl (fun acc v => (parse v).or acc) none (attrVals "href" node.Attr) <;> simp
    · simp [hc]
  · rw [h]
    simp

/-- Reordering the attributes reorders the values of a key. -/
theorem attrVals_perm (key : String) (l1 l2 : List Attribute) (h : l1.Perm l2) :
    (attrVals key l1).Perm (attrVals key l2) := by
  unfold attrVals
  exact (h.filter _).map _

/-- C2: for a `<link>` element whose attributes hold exactly one `rel`
(value `rel`) and exactly one `href` (value `href`), in any order and among
any other attributes, `newHtmlLinkFromLinkNode` returns a record exactly
when `href` parses and `rel` is recognised; the kind is `canonical` for
`rel = "canonical"`, `manifest` for `rel = "manifest"`, `icon` for
`rel = "icon"` or when a token of `rel` split on single spaces is `icon`,
`apple-touch-icon` or `apple-touch-icon-precomposed`; the target is the
parsed `href`; an unparseable `href` or an unrecognised `rel` gives no
record; any reordering of the attributes gives the same result; and an
element with no `rel` or no `href` gives no record. -/
theorem newHtmlLinkFromLinkNode_spec (parse : String → Option URL) (node : Node)
    (rel href : String) (hrel : attrVals "rel" node.Attr = [rel])
    (hhref : attrVals "href" node.Attr = [href]) :
    newHtmlLinkFromLinkNode parse node = linkRecord parse rel href
    ∧ ((newHtmlLinkFromLinkNode parse node).isSome = true ↔
        (parse href).isSome = true ∧ (relKind rel).isSome = true)
    ∧ (∀ u, parse href = some u → rel = "canonical" →
        newHtmlLinkFromLinkNode parse node = some { Typ := "canonical", Href := u })
    ∧ (∀ u, parse href = some u → rel = "manifest" →
        newHtmlLinkFromLinkNode parse node = some { Typ := "manifest", Href := u })
    ∧ (∀ u, parse href = some u →
        (rel = "icon" ∨ ∃ t ∈ stringsSplit rel ' ', t ∈ IconAttributeValues) →
        newHtmlLinkFromLinkNode parse node = some { Typ := "icon", Href := u })
    ∧ (parse href = none → newHtmlLinkFromLinkNode parse node = none)
    ∧ ((rel ≠ "canonical" ∧ rel ≠ "manifest" ∧ rel ≠ "icon" ∧
          ¬ ∃ t ∈ stringsSplit rel ' ', t ∈ IconAttributeValues) →
        newHtmlLinkFromLinkNode parse node = none)
    ∧ (∀ other : Node, node.Attr.Perm other.Attr →
        newHtmlLinkFromLinkNode parse other = newHtmlLinkFromLinkNode parse node)
    ∧ (∀ other : Node, attrVals "rel" other.Attr = [] ∨ attrVals "href" other.Attr = [] →
        newHtmlLinkFromLinkNode parse other = none) := by
  have h1 := newHtmlLinkFromLinkNode_one parse node rel href hrel hhref
  refine ⟨h1, ?_, ?_, ?_, ?_, ?_, ?_, ?_, ?_⟩
  · rw [h1]
    unfold linkRecord
    cases parse href <;> cases relKind rel <;> simp
  · intro u hu hc
    rw [h1]
    subst hc
    simp [linkRecord, hu, relKind]
  · intro u hu hc
    rw [h1]
    subst hc
    simp [linkRecord, hu, relKind]
  · intro u hu hc
    rw [h1]
    have hk : relKind rel = some "icon" := by
      unfold relKind
      by_cases c1 : rel = "canonical"
      · subst c1
        exfalso
        revert hc
        decide
      by_cases c2 : rel = "manifest"
      · subst c2
        exfalso
        revert hc
        decide
      simp only [c1, c2, if_false, hc, if_true]
    simp [linkRecord, hu, hk]
  · intro hn
    rw [h1]
    simp [linkRecord, hn]
  · rintro ⟨c1, c2, c3, c4⟩
    rw [h1]
    have hk : relKind rel = none := by
      unfold relKind
      simp only [c1, c2, c3, c4, if_false, or_self]
    unfold linkRecord
    rw [hk]
    cases parse href <;> rfl
  · intro other hperm
    rw [h1]
    apply newHtmlLinkFromLinkNode_one
    · have := attrVals_perm "rel" _ _ hperm
      rw [hrel] at this
      exact (List.singleton_perm.mp this).symm
    · have := attrVals_perm "href" _ _ hperm
      rw [hhref] at this
      exact (List.singleton_perm.mp this).symm
  · intro other h
    exact newHtmlLinkFromLinkNode_missing parse other h

/-- The element `<link href="icon.png" rel="shortcut apple-touch-icon">`
has one `rel` and one `href`, and yields an `icon` record for `icon.png`. -/
theorem newHtmlLinkFromLinkNode_spec_witness :
    attrVals "rel" sampleLinkNode.Attr = ["shortcut apple-touch-icon"]
    ∧ attrVals "href" sampleLinkNode.Attr = ["icon.png"]
    ∧ newHtmlLinkFromLinkNode sampleParse sampleLinkNode
        = linkRecord sampleParse "shortcut apple-touch-icon" "icon.png"
    ∧ linkRecord sampleParse "shortcut apple-touch-icon" "icon.png"
        = some { Typ := "icon", Href := { Path := "icon.png" } } :=
  ⟨by decide, by decide,
   (newHtmlLinkFromLinkNode_spec sampleParse sampleLinkNode "shortcut apple-touch-icon"
      "icon.png" (by decide) (by decide)).1,
   by decide⟩

/-! ### newHtmlLinkFromMetaNode -/

/-- Folding parsed values over a list all of whose values parse leaves the
parse of the last value. -/
theorem foldl_or_last (parse : String → Option URL) (l : List String) (h : Option URL)
    (hall : l.all (fun v => (parse v).isSome) = true) :
    l.foldl (fun acc v => (parse v).or acc) h =
      match l.getLast? with
      | none => h
      | some c => parse c := by
  induction l generalizing h with
  | nil => rfl
  | cons v rest ih =>
    simp only [List.all_cons, Bool.and_eq_true] at hall
    rw [List.foldl_cons, ih _ hall.2]
    cases hr : rest.getLast? with
    | none =>
      have : rest = [] := List.getLast?_eq_none_iff.mp hr
      subst this
      cases hp : parse v with
      | none => simp [hp] at hall
      | some u => simp [hp]
    | some c =>
      have : (v :: rest).getLast? = some c := by
        cases rest with
        | nil => simp at hr
        | cons b bs => simpa [List.getLast?_cons_cons] using hr
      simp [this]

/-- The attribute loop of `newHtmlLinkFromMetaNode` on any attribute list. -/
theorem metaAttrLoop_eq (parse : String → Option URL) (attrs : List Attribute)
    (img : Bool) (h : Option URL) :
    metaAttrLoop parse attrs img h =
      if ((attrVals "content" attrs).all (fun v => (parse v).isSome)
          && (attrVals "name" attrs).all (fun v => v = "og:image" || v = "twitter:image")) = true
      then
        some (img || !(attrVals "name" attrs).isEmpty,
              (attrVals "content" attrs).foldl (fun acc v => (parse v).or acc) h)
      else none := by
  induction attrs generalizing img h with
  | nil => simp [metaAttrLoop, attrVals]
  | cons a rest ih =>
    unfold metaAttrLoop
    by_cases hk : a.Key = "content"
    · have hr : ¬ a.Key = "name" := by rw [hk]; decide
      rw [attrVals_cons_eq "content" a rest hk, attrVals_cons_ne "name" a rest hr]
      cases hp : parse a.Val with
      | none => simp [hk, hp]
      | some u =>
        simp only [hk, if_true]
        rw [ih]
        simp [hp]
    · by_cases hr : a.Key = "name"
      · rw [attrVals_cons_ne "content" a rest hk, attrVals_cons_eq "name" a rest hr]
        simp only [hk, hr, if_true, if_false]
        by_cases hv : (a.Val = "og:image" ∨ a.Val = "twitter:image")
        · have hv2 : (decide (a.Val = "og:image") || decide (a.Val = "twitter:image")) = true := by
            simpa using hv
          simp only [hv2, Bool.not_true, Bool.false_eq_true, if_false]
          rw [ih]
          simp [hv2]
        · have hv2 : (decide (a.Val = "og:image") || decide (a.Val = "twitter:image")) = false := by
            simpa using hv
          simp [hv2]
      · rw [attrVals_cons_ne "content" a rest hk, attrVals_cons_ne "name" a rest hr]
        simp only [hk, hr, if_false]
        rw [ih]

/-- The result of `newHtmlLinkFromMetaNode` on any attribute list. -/
theorem newHtmlLinkFromMetaNode_eq (parse : String → Option URL) (node : Node) :
    newHtmlLinkFromMetaNode parse node =
      if ((attrVals "content" node.Attr).all (fun v => (parse v).isSome)
          && (attrVals "name" node.Attr).all (fun v => v = "og:image" || v = "twitter:image")
          && !(attrVals "name" node.Attr).isEmpty) = true
      then
        match (attrVals "content" node.Attr).getLast? with
        | none => none
        | some c => (parse c).map (fun u => { Typ := "icon", Href := u })
      else none := by
  unfold newHtmlLinkFromMetaNode
  rw [metaAttrLoop_eq]
  by_cases hc : (attrVals "content" node.Attr).all (fun v => (parse v).isSome) = true
  · rw [foldl_or_last parse _ none hc]
    by_cases hn : (attrVals "name" node.Attr).all (fun v => v = "og:image" || v = "twitter:image")
        = true
    · cases he : (attrVals "name" node.Attr).isEmpty
      · simp only [hc, hn, he, Bool.and_self, if_true, Bool.false_or, Bool.not_false]
        cases hl : (attrVals "content" node.Attr).getLast? with
        | none => simp
        | some c =>
          cases hp : parse c <;> simp [hp]
      · simp only [hc, hn, he, Bool.and_self, if_true, Bool.false_or, Bool.not_true,
          Bool.and_false, Bool.false_eq_true, if_false]
        cases hl : (attrVals "content" node.Attr).getLast? with
        | none => simp
        | some c =>
          cases hp : parse c <;> simp [hp]
    · simp [hc, hn]
  · simp [hc]

/-- C3 (amended): for every `<meta>` element, `newHtmlLinkFromMetaNode`
returns a record exactly when the element has at least one `name`
attribute, every `name` attribute is `og:image` or `twitter:image`, it has
at least one `content` attribute, and every `content` attribute parses; the
record has kind `icon` and its target is the parsed value of the last
`content` attribute.  For an element with one `name` and one `content`
attribute the record is returned exactly when the name is `og:image` or
`twitter:image` and the content parses, with the parsed content as target. -/
theorem newHtmlLinkFromMetaNode_spec (parse : String → Option URL) (node : Node) :
    ((newHtmlLinkFromMetaNode parse node).isSome = true ↔
        attrVals "name" node.Attr ≠ []
        ∧ (∀ v ∈ attrVals "name" node.Attr, v = "og:image" ∨ v = "twitter:image")
        ∧ attrVals "content" node.Attr ≠ []
        ∧ (∀ v ∈ attrVals "content" node.Attr, (parse v).isSome = true))
    ∧ (∀ l, newHtmlLinkFromMetaNode parse node = some l →
        l.Typ = "icon"
        ∧ ∃ c, (attrVals "content" node.Attr).getLast? = some c ∧ parse c = some l.Href)
    ∧ (∀ name content, attrVals "name" node.Attr = [name] →
        attrVals "content" node.Attr = [content] →
        newHtmlLinkFromMetaNode parse node =
          if name = "og:image" ∨ name = "twitter:image" then
            (parse content).map (fun u => { Typ := "icon", Href := u })
          else none) := by
  refine ⟨?_, ?_, ?_⟩
  · rw [newHtmlLinkFromMetaNode_eq]
    constructor
    · intro h
      split_ifs at h with hc
      · simp only [Bool.and_eq_true, List.all_eq_true, Bool.not_eq_true', List.isEmpty_eq_false,
          Bool.or_eq_true, decide_eq_true_eq] at hc
        obtain ⟨⟨h1, h2⟩, h3⟩ := hc
        refine ⟨h3, h2, ?_, h1⟩
        intro hnil
        rw [hnil] at h
        simp at h
      · simp at h
    · rintro ⟨h1, h2, h3, h4⟩
      have hc : ((attrVals "content" node.Attr).all (fun v => (parse v).isSome)
          && (attrVals "name" node.Attr).all (fun v => v = "og:image" || v = "twitter:image")
          && !(attrVals "name" node.Attr).isEmpty) = true := by
        simp only [Bool.and_eq_true, List.all_eq_true, Bool.not_eq_true', List.isEmpty_eq_false,
          Bool.or_eq_true, decide_eq_true_eq]
        exact ⟨⟨h4, h2⟩, h1⟩
      rw [if_pos hc]
      obtain ⟨c, hcl⟩ : ∃ c, (attrVals "content" node.Attr).getLast? = some c := by
        cases hl : (attrVals "content" node.Attr).getLast? with
        | none => exact absurd (List.getLast?_eq_none_iff.mp hl) h3
        | some c => exact ⟨c, rfl⟩
      rw [hcl]
      have hm : c ∈ attrVals "content" node.Attr := List.mem_of_getLast?_eq_some hcl
      have := h4 c hm
      cases hp : parse c with
      | none => simp [hp] at this
      | some u => simp [hp]
  · intro l hl
    rw [newHtmlLinkFromMetaNode_eq] at hl
    split_ifs at hl with hc
    cases hg : (attrVals "content" node.Attr).getLast? with
    | none => simp [hg] at hl
    | some c =>
      rw [hg] at hl
      cases hp : parse c with
      | none => simp [hp] at hl
      | some u =>
        simp only [hp, Option.map_some', Option.some.injEq] at hl
        subst hl
        exact ⟨rfl, c, rfl, hp⟩
  · intro name content hn hcn
    rw [newHtmlLinkFromMetaNode_eq, hn, hcn]
    by_cases hv : name = "og:image" ∨ name = "twitter:image"
    · cases hp : parse content with
      | none => simp [hv, hp]
      | some u => simp [hv, hp]
    · cases hp : parse content with
      | none => simp [hv, hp]
      | some u => simp [hv, hp]

/-- C3 as stated fails: the element
`<meta name="og:image" content="/f.png" name="description">` has a `name`
attribute equal to `og:image` and a `content` attribute that parses, and
`newHtmlLinkFromMetaNode` returns no record for it. -/
theorem newHtmlLinkFromMetaNode_counterexample :
    (∃ a ∈ sampleMetaDup.Attr, a.Key = "name" ∧ (a.Val = "og:image" ∨ a.Val = "twitter:image"))
    ∧ (∃ a ∈ sampleMetaDup.Attr, a.Key = "content" ∧ (sampleParse a.Val).isSome = true)
    ∧ newHtmlLinkFromMetaNode sampleParse sampleMetaDup = none := by
  decide

/-- The element `<meta content="/f.png" name="twitter:image">` has one
`name` and one `content`, and yields an `icon` record for `/f.png`. -/
theorem newHtmlLinkFromMetaNode_spec_witness :
    attrVals "name" sampleMeta.Attr = ["twitter:image"]
    ∧ attrVals "content" sampleMeta.Attr = ["/f.png"]
    ∧ newHtmlLinkFromMetaNode sampleParse sampleMeta
        = some { Typ := "icon", Href := { Path := "/f.png" } } :=
  ⟨by decide, by decide, by
    rw [(newHtmlLinkFromMetaNode_spec sampleParse sampleMeta).2.2 "twitter:image" "/f.png"
      (by decide) (by decide)]
    decide⟩

/-! ### getLinks -/

/-- The list `getLinks` returns for a `link` or `meta` element is the
classification of that element. -/
theorem linkOfElement_eq (parse : String → Option URL) (kind : NodeType) (data : String)
    (attr : List Attribute) (children : List Node)
    (h : (kind = NodeType.ElementNode && (data = "link" || data = "meta")) = true) :
    linkOfElement parse (Node.mk kind data attr children)
      = (classify parse (Node.mk kind data attr children)).toList := by
  simp only [Bool.and_eq_true, Bool.or_eq_true, decide_eq_true_eq] at h
  obtain ⟨hk, hd⟩ := h
  unfold linkOfElement classify
  simp only [Node.kind, Node.Data, hk, true_and]
  rcases hd with hd | hd
  · subst hd
    simp only [if_true]
    cases newHtmlLinkFromLinkNode parse _ <;> rfl
  · subst hd
    have hne : ¬ ("meta" = "link") := by decide
    simp only [hne, if_false, if_true]
    cases newHtmlLinkFromMetaNode parse _ <;> rfl

/-- A node that is not a `link` or `meta` element classifies to nothing. -/
theorem classify_other (parse : String → Option URL) (kind : NodeType) (data : String)
    (attr : List Attribute) (children : List Node)
    (h : ¬ (kind = NodeType.ElementNode && (data = "link" || data = "meta")) = true) :
    classify parse (Node.mk kind data attr children) = none := by
  simp only [Bool.and_eq_true, Bool.or_eq_true, decide_eq_true_eq, not_and, not_or] at h
  unfold classify
  simp only [Node.kind, Node.Data]
  by_cases hk : kind = NodeType.ElementNode
  · have := h hk
    simp [hk, this.1, this.2]
  · simp [hk]

mutual
/-- The records of `getLinks` are the classifications of the visited nodes,
in order. -/
theorem getLinks_eq_visited (parse : String → Option URL) (u : URL) :
    ∀ n : Node, getLinks parse u n = (visited n).filterMap (classify parse)
  | .mk kind data attr children => by
    unfold getLinks visited
    by_cases h : (kind = NodeType.ElementNode && (data = "link" || data = "meta")) = true
    · rw [if_neg (by simp only [h, Bool.not_true, Bool.false_eq_true, not_false_eq_true]),
        if_pos h, linkOfElement_eq parse kind data attr children h]
      cases hc : classify parse (Node.mk kind data attr children) with
      | none => simp [List.filterMap_cons, hc]
      | some l => simp [List.filterMap_cons, hc]
    · have hb : (kind = NodeType.ElementNode && (data = "link" || data = "meta")) = false := by
        simpa using h
      rw [if_pos (by simp only [hb, Bool.not_false]), if_neg h,
        getLinksChildren_eq_visited parse u children [],
        List.filterMap_cons, classify_other parse kind data attr children h]
      simp
/-- The loop over the children appends the classifications of the nodes
visited below them. -/
theorem getLinksChildren_eq_visited (parse : String → Option URL) (u : URL) :
    ∀ (cs : List Node) (icons : List HtmlLink),
      getLinksChildren parse u cs icons = icons ++ (visitedList cs).filterMap (classify parse)
  | [], icons => by simp [getLinksChildren, visitedList]
  | c :: rest, icons => by
    unfold getLinksChildren visitedList
    simp only
    rw [getLinks_eq_visited parse u c, List.filterMap_append]
    by_cases hl : (List.filterMap (classify parse) (visited c)).length ≠ 0
    · rw [if_pos hl, getLinksChildren_eq_visited parse u rest _, List.append_assoc]
    · rw [if_neg hl, getLinksChildren_eq_visited parse u rest _]
      have : List.filterMap (classify parse) (visited c) = [] := by
        simpa using hl
      rw [this, List.nil_append]
end

mutual
/-- The visited nodes are among the nodes of the tree, in the same order. -/
theorem visited_sublist : ∀ n : Node, (visited n).Sublist (preorder n)
  | .mk kind data attr children => by
    unfold visited preorder
    by_cases h : (kind = NodeType.ElementNode && (data = "link" || data = "meta")) = true
    · rw [if_pos h]
      exact (List.nil_sublist _).cons₂ _
    · rw [if_neg h]
      exact (visitedList_sublist children).cons₂ _
/-- The visited nodes of a forest are among its nodes, in the same order. -/
theorem visitedList_sublist : ∀ cs : List Node, (visitedList cs).Sublist (preorderList cs)
  | [] => by simp [visitedList, preorderList]
  | c :: rest => by
    unfold visitedList preorderList
    exact (visited_sublist c).append (visitedList_sublist rest)
end

mutual
/-- When no `link` or `meta` element has a child, every node is visited. -/
theorem visited_eq_preorder : ∀ n : Node, voidLeaves n = true → visited n = preorder n
  | .mk kind data attr children => by
    intro hv
    unfold voidLeaves at hv
    unfold visited preorder
    by_cases h : (kind = NodeType.ElementNode && (data = "link" || data = "meta")) = true
    · rw [if_pos h] at hv
      rw [if_pos h]
      have : children = [] := by simpa using hv
      subst this
      simp [preorderList]
    · rw [if_neg h] at hv
      rw [if_neg h, visitedList_eq_preorderList children hv]
/-- When no `link` or `meta` element of a forest has a child, every node of
the forest is visited. -/
theorem visitedList_eq_preorderList :
    ∀ cs : List Node, voidLeavesList cs = true → visitedList cs = preorderList cs
  | [] => by simp [visitedList, preorderList]
  | c :: rest => by
    intro hv
    unfold voidLeavesList at hv
    simp only [Bool.and_eq_true] at hv
    unfold visitedList preorderList
    rw [visited_eq_preorder c hv.1, visitedList_eq_preorderList rest hv.2]
end

/-- C4 as stated fails: for a `link` element with a `link` child,
`getLinks` returns the record of the outer element only, while classifying
every `link` and `meta` element of the tree gives two records. -/
theorem getLinks_counterexample :
    getLinks sampleParse {} sampleNestedLink
        = [{ Typ := "icon", Href := { Path := "/f.png" } }]
    ∧ (preorder sampleNestedLink).filterMap (classify sampleParse)
        = [{ Typ := "icon", Href := { Path := "/f.png" } },
           { Typ := "icon", Href := { Path := "/g.png" } }]
    ∧ getLinks sampleParse {} sampleNestedLink
        ≠ (preorder sampleNestedLink).filterMap (classify sampleParse) := by
  decide

/-- C4 (amended): for every HTML tree, `getLinks` returns, in document
order, exactly the records produced by classifying the nodes it visits,
which are the nodes of the tree in depth-first pre-order without those below
a `link` or `meta` element; nodes that classify to no record contribute
nothing; and when no `link` or `meta` element of the tree has a child, these
are the records of every `link` and `meta` element of the tree. -/
theorem getLinks_spec (parse : String → Option URL) (u : URL) (n : Node) :
    getLinks parse u n = (visited n).filterMap (classify parse)
    ∧ (visited n).Sublist (preorder n)
    ∧ (∀ m ∈ visited n, isLinkOrMeta m = false → classify parse m = none)
    ∧ (voidLeaves n = true →
        getLinks parse u n = (preorder n).filterMap (classify parse)) := by
  refine ⟨getLinks_eq_visited parse u n, visited_sublist n, ?_, ?_⟩
  · intro m _ hm
    cases m with
    | mk kind data attr children =>
      apply classify_other
      simp only [isLinkOrMeta, Node.kind, Node.Data] at hm
      simp [hm]
  · intro hv
    rw [getLinks_eq_visited parse u n, visited_eq_preorder n hv]

/-- A document whose `link` and `meta` elements have no children: `getLinks`
returns the records of all of them in document order. -/
theorem getLinks_spec_witness :
    voidLeaves sampleDoc = true
    ∧ getLinks sampleParse {} sampleDoc
        = (preorder sampleDoc).filterMap (classify sampleParse)
    ∧ getLinks sampleParse {} sampleDoc
        = [{ Typ := "icon", Href := { Path := "/f.png" } },
           { Typ := "icon", Href := { Path := "/g.png" } }] :=
  ⟨by decide, (getLinks_spec sampleParse {} sampleDoc).2.2.2 (by decide), by decide⟩

/-! ### fetchUrl -/

/-- One pass of the loop on a transport error. -/
theorem fetchUrlIter_error {σ : Type} (get : σ → String → Res Response × σ) (w w1 : σ)
    (u msg : String) (hg : get w u = (Res.error msg, w1)) :
    fetchUrlIter get w u
      = (Iter.done { url := u, resp := none, err := some (Error.transport msg) }, w1) := by
  unfold fetchUrlIter
  rw [hg]

/-- One pass of the loop on a redirect with a location. -/
theorem fetchUrlIter_redirect {σ : Type} (get : σ → String → Res Response × σ) (w w1 : σ)
    (u : String) (r : Response) (hg : get w u = (Res.ok r, w1))
    (h1 : 300 ≤ r.StatusCode) (h2 : r.StatusCode < 400) (hl : r.Location ≠ "") :
    fetchUrlIter get w u = (Iter.next r.Location, w1) := by
  unfold fetchUrlIter
  rw [hg]
  have hc : r.StatusCode ≥ StatusMultipleChoices ∧ r.StatusCode < StatusBadRequest := ⟨h1, h2⟩
  simp only [hc, and_self, if_true, hl, if_false]

/-- One pass of the loop on a redirect without a location. -/
theorem fetchUrlIter_noLocation {σ : Type} (get : σ → String → Res Response × σ) (w w1 : σ)
    (u : String) (r : Response) (hg : get w u = (Res.ok r, w1))
    (h1 : 300 ≤ r.StatusCode) (h2 : r.StatusCode < 400) (hl : r.Location = "") :
    fetchUrlIter get w u
      = (Iter.done { url := u, resp := none,
                     err := some (Error.emptyLocation r.Location r.Status r.StatusCode) },
         w1) := by
  unfold fetchUrlIter
  rw [hg]
  have hc : r.StatusCode ≥ StatusMultipleChoices ∧ r.StatusCode < StatusBadRequest := ⟨h1, h2⟩
  simp only [hc, and_self, if_true, hl]

/-- One pass of the loop on a status outside [200,400). -/
theorem fetchUrlIter_invalid {σ : Type} (get : σ → String → Res Response × σ) (w w1 : σ)
    (u : String) (r : Response) (hg : get w u = (Res.ok r, w1))
    (h : r.StatusCode < 200 ∨ 400 ≤ r.StatusCode) :
    fetchUrlIter get w u
      = (Iter.done { url := u, resp := none,
                     err := some (Error.invalidStatus u r.Status r.StatusCode) }, w1) := by
  unfold fetchUrlIter
  rw [hg]
  have hc : ¬ (r.StatusCode ≥ StatusMultipleChoices ∧ r.StatusCode < StatusBadRequest) := by
    unfold StatusMultipleChoices StatusBadRequest
    omega
  have hd : r.StatusCode < StatusOK ∨ r.StatusCode > StatusMultipleChoices := by
    unfold StatusOK StatusMultipleChoices
    omega
  simp only [hc, if_false, hd, if_true]

/-- One pass of the loop on a status in [200,300). -/
theorem fetchUrlIter_ok {σ : Type} (get : σ → String → Res Response × σ) (w w1 : σ)
    (u : String) (r : Response) (hg : get w u = (Res.ok r, w1))
    (h1 : 200 ≤ r.StatusCode) (h2 : r.StatusCode < 300) :
    fetchUrlIter get w u = (Iter.done { url := u, resp := some r, err := none }, w1) := by
  unfold fetchUrlIter
  rw [hg]
  have hc : ¬ (r.StatusCode ≥ StatusMultipleChoices ∧ r.StatusCode < StatusBadRequest) := by
    unfold StatusMultipleChoices
    omega
  have hd : ¬ (r.StatusCode < StatusOK ∨ r.StatusCode > StatusMultipleChoices) := by
    unfold StatusOK StatusMultipleChoices
    omega
  simp only [hc, if_false, hd]

/-- With fuel for one more request, `fetchUrl` runs the body of its loop. -/
theorem fetchUrl_succ {σ : Type} (get : σ → String → Res Response × σ) (fuel : Nat) (w : σ)
    (u : String) :
    fetchUrl get (fuel + 1) w u =
      match fetchUrlIter get w u with
      | (Iter.next location, w1) => fetchUrl get fuel w1 location
      | (Iter.done r, w1) => Run.ret (r, w1) := by
  rw [fetchUrl]

/-- The last URL of a chain is the last location, or the start URL when
there is no redirect. -/
theorem Reaches_last {σ : Type} (get : σ → String → Res Response × σ) (ls : List String) :
    ∀ (w : σ) (u0 u : String) (w1 : σ), Reaches get w u0 ls u w1 → u = ls.getLastD u0 := by
  induction ls with
  | nil =>
    intro w u0 u w1 h
    exact h.1
  | cons l rest ih =>
    intro w u0 u w1 h
    obtain ⟨r, w2, _, _, _, _, _, hrest⟩ := h
    have := ih w2 l u w1 hrest
    rw [this]
    cases rest <;> simp [List.getLastD]

/-- Along a chain that reaches `u`, `fetchUrl` does what it does at `u`,
given fuel for the redirects on the way. -/
theorem fetchUrl_along {σ : Type} (get : σ → String → Res Response × σ) (ls : List String) :
    ∀ (w : σ) (u0 u : String) (w1 : σ) (fuel : Nat), Reaches get w u0 ls u w1 →
      fetchUrl get (ls.length + fuel) w u0 = fetchUrl get fuel w1 u := by
  induction ls with
  | nil =>
    intro w u0 u w1 fuel h
    obtain ⟨h1, h2⟩ := h
    subst h1 h2
    simp
  | cons l rest ih =>
    intro w u0 u w1 fuel h
    obtain ⟨r, w2, hg, h3, h4, hl, hne, hrest⟩ := h
    have hstep : (l :: rest).length + fuel = (rest.length + fuel) + 1 := by
      simp only [List.length_cons]
      omega
    rw [hstep, fetchUrl_succ,
      fetchUrlIter_redirect get w w2 u0 r hg h3 h4 (by rw [hl]; exact hne), hl]
    exact ih w2 l u w1 fuel hrest

/-- C5: when the requests from `u0` are answered by a chain of `n ≥ 0`
redirects (status in [300,400), non-empty `Location`) to `l1 .. ln` and the
last requested URL is answered with a status in [200,300), `fetchUrl`, given
fuel for these `n + 1` requests, returns that final response without error,
and the returned URL is the last requested one (`ln`, or `u0` when
`n = 0`). -/
theorem fetchUrl_redirect_chain {σ : Type} (get : σ → String → Res Response × σ) (w : σ)
    (u0 : String) (ls : List String) (u : String) (w1 : σ) (final : Response) (w2 : σ)
    (fuel : Nat) (hchain : Reaches get w u0 ls u w1) (hget : get w1 u = (Res.ok final, w2))
    (h200 : 200 ≤ final.StatusCode) (h300 : final.StatusCode < 300)
    (hfuel : ls.length < fuel) :
    fetchUrl get fuel w u0
      = Run.ret ({ url := ls.getLastD u0, resp := some final, err := none }, w2) := by
  obtain ⟨k, rfl⟩ : ∃ k, fuel = ls.length + (k + 1) := ⟨fuel - ls.length - 1, by omega⟩
  rw [fetchUrl_along get ls w u0 u w1 (k + 1) hchain, fetchUrl_succ,
    fetchUrlIter_ok get w1 w2 u final hget h200 h300,
    Reaches_last get ls w u0 u w1 hchain]

/-- In the sample network, `http://a.com/x` is redirected twice and then
answered with 200; `fetchUrl` returns the page at `https://a.com/`. -/
theorem fetchUrl_redirect_chain_witness :
    Reaches sampleGet 0 "http://a.com/x" ["https://a.com/r", "https://a.com/"]
      "https://a.com/" 2
    ∧ fetchUrl sampleGet 3 0 "http://a.com/x"
      = Run.ret ({ url := "https://a.com/",
                   resp := some { Status := "200 OK", StatusCode := 200,
                                  ContentType := "text/html; charset=utf-8",
                                  Body := Res.ok "page" },
                   err := none }, 3) :=
  have hchain : Reaches sampleGet 0 "http://a.com/x" ["https://a.com/r", "https://a.com/"]
      "https://a.com/" 2 :=
    ⟨_, 1, rfl, by decide, by decide, rfl, by decide,
      _, 2, rfl, by decide, by decide, rfl, by decide, rfl, rfl⟩
  ⟨hchain,
   fetchUrl_redirect_chain sampleGet 0 "http://a.com/x" ["https://a.com/r", "https://a.com/"]
     "https://a.com/" 2 _ 3 3 hchain rfl (by decide) (by decide) (by decide)⟩

/-- One pass of the loop falls under exactly one of its five outcomes. -/
theorem fetchUrlIter_cases {σ : Type} (get : σ → String → Res Response × σ) (w : σ)
    (u : String) :
    (∃ msg w1, get w u = (Res.error msg, w1)
      ∧ fetchUrlIter get w u
          = (Iter.done { url := u, resp := none, err := some (Error.transport msg) }, w1))
    ∨ (∃ r w1, get w u = (Res.ok r, w1) ∧ 300 ≤ r.StatusCode ∧ r.StatusCode < 400
      ∧ r.Location ≠ "" ∧ fetchUrlIter get w u = (Iter.next r.Location, w1))
    ∨ (∃ r w1, get w u = (Res.ok r, w1) ∧ 300 ≤ r.StatusCode ∧ r.StatusCode < 400
      ∧ r.Location = ""
      ∧ fetchUrlIter get w u
          = (Iter.done { url := u, resp := none,
                         err := some (Error.emptyLocation r.Location r.Status r.StatusCode) },
             w1))
    ∨ (∃ r w1, get w u = (Res.ok r, w1) ∧ (r.StatusCode < 200 ∨ 400 ≤ r.StatusCode)
      ∧ fetchUrlIter get w u
          = (Iter.done { url := u, resp := none,
                         err := some (Error.invalidStatus u r.Status r.StatusCode) }, w1))
    ∨ (∃ r w1, get w u = (Res.ok r, w1) ∧ 200 ≤ r.StatusCode ∧ r.StatusCode < 300
      ∧ fetchUrlIter get w u = (Iter.done { url := u, resp := some r, err := none }, w1)) := by
  rcases hg : get w u with ⟨res, w1⟩
  cases res with
  | error msg => exact Or.inl ⟨msg, w1, rfl, fetchUrlIter_error get w w1 u msg hg⟩
  | ok r =>
    by_cases h3 : 300 ≤ r.StatusCode ∧ r.StatusCode < 400
    · by_cases hl : r.Location = ""
      · exact Or.inr (Or.inr (Or.inl ⟨r, w1, rfl, h3.1, h3.2, hl,
          fetchUrlIter_noLocation get w w1 u r hg h3.1 h3.2 hl⟩))
      · exact Or.inr (Or.inl ⟨r, w1, rfl, h3.1, h3.2, hl,
          fetchUrlIter_redirect get w w1 u r hg h3.1 h3.2 hl⟩)
    · by_cases h2 : 200 ≤ r.StatusCode ∧ r.StatusCode < 300
      · exact Or.inr (Or.inr (Or.inr (Or.inr ⟨r, w1, rfl, h2.1, h2.2,
          fetchUrlIter_ok get w w1 u r hg h2.1 h2.2⟩)))
      · have hb : r.StatusCode < 200 ∨ 400 ≤ r.StatusCode := by omega
        exact Or.inr (Or.inr (Or.inr (Or.inl ⟨r, w1, rfl, hb,
          fetchUrlIter_invalid get w w1 u r hg hb⟩)))

/-- A result of `fetchUrl` carries an error exactly when it carries no
response. -/
theorem fetchUrl_err_iff_no_resp {σ : Type} (get : σ → String → Res Response × σ) :
    ∀ (fuel : Nat) (w : σ) (u0 : String) (res : FetchResult) (w2 : σ),
      fetchUrl get fuel w u0 = Run.ret (res, w2) → (res.err ≠ none ↔ res.resp = none) := by
  intro fuel
  induction fuel with
  | zero =>
    intro w u0 res w2 h
    simp [fetchUrl] at h
  | succ fuel ih =>
    intro w u0 res w2 h
    rw [fetchUrl_succ] at h
    rcases fetchUrlIter_cases get w u0 with ⟨msg, w1, _, hi⟩ | ⟨r, w1, _, _, _, _, hi⟩ |
      ⟨r, w1, _, _, _, _, hi⟩ | ⟨r, w1, _, _, hi⟩ | ⟨r, w1, _, _, _, hi⟩
    all_goals rw [hi] at h
    · simp only [Run.ret.injEq, Prod.mk.injEq] at h
      rw [← h.1]; simp
    · exact ih _ _ res w2 h
    · simp only [Run.ret.injEq, Prod.mk.injEq] at h
      rw [← h.1]; simp
    · simp only [Run.ret.injEq, Prod.mk.injEq] at h
      rw [← h.1]; simp
    · simp only [Run.ret.injEq, Prod.mk.injEq] at h
      rw [← h.1]; simp

/-- An error returned by `fetchUrl` comes from a chain that reaches a
failing request. -/
theorem fetchUrl_error_reaches {σ : Type} (get : σ → String → Res Response × σ) :
    ∀ (fuel : Nat) (w : σ) (u0 u : String) (e : Error) (w2 : σ),
      fetchUrl get fuel w u0 = Run.ret ({ url := u, resp := none, err := some e }, w2) →
      ∃ ls w1, Reaches get w u0 ls u w1 ∧ FailsAt get w1 u e w2 := by
  intro fuel
  induction fuel with
  | zero =>
    intro w u0 u e w2 h
    simp [fetchUrl] at h
  | succ fuel ih =>
    intro w u0 u e w2 h
    rw [fetchUrl_succ] at h
    rcases fetchUrlIter_cases get w u0 with ⟨msg, w1, hg, hi⟩ | ⟨r, w1, hg, h3, h4, hl, hi⟩ |
      ⟨r, w1, hg, h3, h4, hl, hi⟩ | ⟨r, w1, hg, hb, hi⟩ | ⟨r, w1, hg, _, _, hi⟩
    all_goals rw [hi] at h
    · simp only [Run.ret.injEq, Prod.mk.injEq, FetchResult.mk.injEq, true_and,
        Option.some.injEq] at h
      obtain ⟨⟨hu, he⟩, hw⟩ := h
      subst hu he hw
      exact ⟨[], w, ⟨rfl, rfl⟩, Or.inl ⟨msg, hg, rfl⟩⟩
    · obtain ⟨ls, w3, hreach, hfail⟩ := ih w1 r.Location u e w2 h
      exact ⟨r.Location :: ls, w3, ⟨r, w1, hg, h3, h4, rfl, hl, hreach⟩, hfail⟩
    · simp only [Run.ret.injEq, Prod.mk.injEq, FetchResult.mk.injEq, true_and,
        Option.some.injEq] at h
      obtain ⟨⟨hu, he⟩, hw⟩ := h
      subst hu he hw
      exact ⟨[], w, ⟨rfl, rfl⟩, Or.inr (Or.inl ⟨r, hg, h3, h4, hl, rfl⟩)⟩
    · simp only [Run.ret.injEq, Prod.mk.injEq, FetchResult.mk.injEq, true_and,
        Option.some.injEq] at h
      obtain ⟨⟨hu, he⟩, hw⟩ := h
      subst hu he hw
      exact ⟨[], w, ⟨rfl, rfl⟩, Or.inr (Or.inr ⟨r, hg, hb, rfl⟩)⟩
    · simp at h

/-- A chain that reaches a failing request makes `fetchUrl` return that
error, given fuel for the requests. -/
theorem fetchUrl_reaches_error {σ : Type} (get : σ → String → Res Response × σ) (w : σ)
    (u0 : String) (ls : List String) (u : String) (w1 : σ) (e : Error) (w2 : σ) (k : Nat)
    (hreach : Reaches get w u0 ls u w1) (hfail : FailsAt get w1 u e w2) :
    fetchUrl get (ls.length + (k + 1)) w u0
      = Run.ret ({ url := u, resp := none, err := some e }, w2) := by
  rw [fetchUrl_along get ls w u0 u w1 (k + 1) hreach, fetchUrl_succ]
  rcases hfail with ⟨msg, hg, he⟩ | ⟨r, hg, h3, h4, hl, he⟩ | ⟨r, hg, hb, he⟩
  · rw [fetchUrlIter_error get w1 w2 u msg hg, he]
  · rw [fetchUrlIter_noLocation get w1 w2 u r hg h3 h4 hl, he]
  · rw [fetchUrlIter_invalid get w1 w2 u r hg hb, he]

/-- C6: a result of `fetchUrl` carries an error exactly when it carries no
response; `fetchUrl` returns the error `e` at URL `u` exactly when the
redirect chain from `u0` reaches, at `u`, (a) a transport error, (b) a
status in [300,400) with an empty `Location`, or (c) a status outside
[200,400), the error of case (c) holding that status code and the URL `u`;
a status in 200..299 is accepted with its response and a status below 200
or at or above 400 is rejected with the error of case (c). -/
theorem fetchUrl_error_spec {σ : Type} (get : σ → String → Res Response × σ) (w : σ)
    (u0 : String) :
    (∀ fuel res w2, fetchUrl get fuel w u0 = Run.ret (res, w2) →
        (res.err ≠ none ↔ res.resp = none))
    ∧ (∀ u e w2,
        (∃ fuel, fetchUrl get fuel w u0
            = Run.ret ({ url := u, resp := none, err := some e }, w2))
        ↔ ∃ ls w1, Reaches get w u0 ls u w1 ∧ FailsAt get w1 u e w2)
    ∧ (∀ fuel res w2 e, fetchUrl get fuel w u0 = Run.ret (res, w2) → res.err = some e →
        res.resp = none ∧ ∃ ls w1, Reaches get w u0 ls res.url w1 ∧ FailsAt get w1 res.url e w2)
    ∧ (∀ r w1 fuel, get w u0 = (Res.ok r, w1) → 200 ≤ r.StatusCode → r.StatusCode ≤ 299 →
        fetchUrl get (fuel + 1) w u0
          = Run.ret ({ url := u0, resp := some r, err := none }, w1))
    ∧ (∀ r w1 fuel, get w u0 = (Res.ok r, w1) → (r.StatusCode < 200 ∨ 400 ≤ r.StatusCode) →
        fetchUrl get (fuel + 1) w u0
          = Run.ret ({ url := u0, resp := none,
                       err := some (Error.invalidStatus u0 r.Status r.StatusCode) }, w1)) := by
  refine ⟨fun fuel res w2 h => fetchUrl_err_iff_no_resp get fuel w u0 res w2 h, ?_, ?_, ?_, ?_⟩
  · intro u e w2
    constructor
    · rintro ⟨fuel, h⟩
      exact fetchUrl_error_reaches get fuel w u0 u e w2 h
    · rintro ⟨ls, w1, hreach, hfail⟩
      exact ⟨ls.length + (0 + 1), fetchUrl_reaches_error get w u0 ls u w1 e w2 0 hreach hfail⟩
  · intro fuel res w2 e h he
    have hnone : res.resp = none :=
      (fetchUrl_err_iff_no_resp get fuel w u0 res w2 h).mp (by rw [he]; simp)
    refine ⟨hnone, ?_⟩
    apply fetchUrl_error_reaches get fuel w u0 res.url e w2
    rw [h]
    cases res with
    | mk url resp err =>
      simp only at hnone he
      rw [hnone, he]
  · intro r w1 fuel hg h2 h3
    rw [fetchUrl_succ, fetchUrlIter_ok get w w1 u0 r hg h2 (by omega)]
  · intro r w1 fuel hg hb
    rw [fetchUrl_succ, fetchUrlIter_invalid get w w1 u0 r hg hb]

/-- In the sample network the request for `https://a.com/gone` is answered
with 404, and `fetchUrl` returns the error holding that URL and code. -/
theorem fetchUrl_error_spec_witness :
    sampleGet 0 "https://a.com/gone"
      = (Res.ok { Status := "404 Not Found", StatusCode := 404 }, 1)
    ∧ fetchUrl sampleGet 1 0 "https://a.com/gone"
      = Run.ret ({ url := "https://a.com/gone", resp := none,
                   err := some (Error.invalidStatus "https://a.com/gone" "404 Not Found" 404) },
                 1) :=
  ⟨rfl, (fetchUrl_error_spec sampleGet 0 "https://a.com/gone").2.2.2.2
    { Status := "404 Not Found", StatusCode := 404 } 1 0 rfl (by decide)⟩

/-! ### parseArg -/

/-- A string has length zero exactly when it is empty. -/
theorem length_eq_zero_iff (s : String) : s.length = 0 ↔ s = "" := by
  constructor
  · intro h
    apply String.ext
    exact List.length_eq_zero.mp h
  · rintro rfl
    rfl

/-- A token that parses with scheme empty, `http` or `https` is accepted, and
the returned URL is the parsed one with the scheme defaulted to `https` and
a path without host moved to the host. -/
theorem parseArg_accept (parse : String → Option URL) (arg : String) (u : URL)
    (hp : parse arg = some u)
    (hs : u.Scheme = "" ∨ u.Scheme = "http" ∨ u.Scheme = "https") :
    parseArg parse arg =
        (some { u with
                Scheme := if u.Scheme = "" then "https" else u.Scheme
                Host := if u.Host = "" ∧ u.Path ≠ "" then u.Path else u.Host
                Path := if u.Host = "" ∧ u.Path ≠ "" then "" else u.Path }, none) := by
  unfold parseArg
  rw [hp]
  obtain ⟨sc, op, us, ho, pa, rp, oh, fq, rq, fr, rf⟩ := u
  dsimp only at hs ⊢
  have hlen : pa.length ≠ 0 ↔ pa ≠ "" := not_congr (length_eq_zero_iff pa)
  by_cases hc : ho = "" ∧ pa ≠ ""
  · have hc2 : ho = "" ∧ pa.length ≠ 0 := ⟨hc.1, hlen.mpr hc.2⟩
    rcases hs with h | h | h <;> subst h <;> simp [hc, hc2]
  · have hc2 : ¬ (ho = "" ∧ pa.length ≠ 0) := fun h => hc ⟨h.1, hlen.mp h.2⟩
    rcases hs with h | h | h <;> subst h <;> simp [hc, hc2]

/-- C7: for every token that parses as a URL `u` whose scheme is empty,
`http` or `https`, `parseArg` succeeds and returns `u` with the scheme
replaced by `https` when it was empty and otherwise kept, and, when the
parsed host is empty and the parsed path is not, with the host set to the
whole parsed path and the path emptied, host and path being kept otherwise;
so the token `example.com`, which parses to a URL with only the path
`example.com`, yields scheme `https`, host `example.com` and empty path. -/
theorem parseArg_spec (parse : String → Option URL) (arg : String) (u : URL)
    (hp : parse arg = some u)
    (hs : u.Scheme = "" ∨ u.Scheme = "http" ∨ u.Scheme = "https") :
    parseArg parse arg =
        (some { u with
                Scheme := if u.Scheme = "" then "https" else u.Scheme
                Host := if u.Host = "" ∧ u.Path ≠ "" then u.Path else u.Host
                Path := if u.Host = "" ∧ u.Path ≠ "" then "" else u.Path }, none)
    ∧ (arg = "example.com" → u = { Path := "example.com" } →
        parseArg parse "example.com"
          = (some { Scheme := "https", Host := "example.com", Path := "" }, none)) := by
  refine ⟨parseArg_accept parse arg u hp hs, ?_⟩
  intro ha hu
  subst ha hu
  rw [parseArg_accept parse "example.com" { Path := "example.com" } hp hs]
  decide

/-- The token `example.com` in the sample of `url.Parse`. -/
theorem parseArg_spec_witness :
    sampleParse "example.com" = some { Path := "example.com" }
    ∧ parseArg sampleParse "example.com"
        = (some { Scheme := "https", Host := "example.com", Path := "" }, none) :=
  ⟨by decide,
   (parseArg_spec sampleParse "example.com" { Path := "example.com" } (by decide)
      (Or.inl (by decide))).2 rfl rfl⟩

/-- C8: `parseArg` returns an error exactly when the token fails to parse
(the error is `invalidUrl`) or parses with a non-empty scheme that is
neither `http` nor `https` (the error is `unsupportedScheme`); with an error
no URL is returned; and `ftp://example.com`, which parses with scheme `ftp`,
is rejected with `unsupportedScheme`. -/
theorem parseArg_error_spec (parse : String → Option URL) (arg : String) :
    ((parseArg parse arg).2 ≠ none ↔
        (parse arg = none
          ∨ ∃ u, parse arg = some u ∧ u.Scheme ≠ "" ∧ u.Scheme ≠ "http" ∧ u.Scheme ≠ "https"))
    ∧ (parse arg = none → parseArg parse arg = (none, some Error.invalidUrl))
    ∧ (∀ u, parse arg = some u → u.Scheme ≠ "" → u.Scheme ≠ "http" → u.Scheme ≠ "https" →
        parseArg parse arg = (none, some Error.unsupportedScheme))
    ∧ ((parseArg parse arg).2 ≠ none → (parseArg parse arg).1 = none)
    ∧ ((parseArg parse arg).2 = none → (parseArg parse arg).1 ≠ none)
    ∧ (∀ u, arg = "ftp://example.com" → parse arg = some u → u.Scheme = "ftp" →
        parseArg parse arg = (none, some Error.unsupportedScheme)) := by
  have hbad : ∀ u, parse arg = some u → u.Scheme ≠ "" → u.Scheme ≠ "http" →
      u.Scheme ≠ "https" → parseArg parse arg = (none, some Error.unsupportedScheme) := by
    intro u hu h1 h2 h3
    unfold parseArg
    rw [hu]
    simp [h1, h2, h3]
  have hnone : parse arg = none → parseArg parse arg = (none, some Error.invalidUrl) := by
    intro h
    unfold parseArg
    rw [h]
  have hgood : ∀ u, parse arg = some u →
      (u.Scheme = "" ∨ u.Scheme = "http" ∨ u.Scheme = "https") →
      (parseArg parse arg).2 = none ∧ (parseArg parse arg).1 ≠ none := by
    intro u hu hs
    rw [parseArg_accept parse arg u hu hs]
    simp
  have hcases : ∀ u : URL, (u.Scheme = "" ∨ u.Scheme = "http" ∨ u.Scheme = "https")
      ∨ (u.Scheme ≠ "" ∧ u.Scheme ≠ "http" ∧ u.Scheme ≠ "https") := by
    intro u
    by_cases h1 : u.Scheme = ""
    · exact Or.inl (Or.inl h1)
    by_cases h2 : u.Scheme = "http"
    · exact Or.inl (Or.inr (Or.inl h2))
    by_cases h3 : u.Scheme = "https"
    · exact Or.inl (Or.inr (Or.inr h3))
    exact Or.inr ⟨h1, h2, h3⟩
  refine ⟨?_, hnone, hbad, ?_, ?_, ?_⟩
  · constructor
    · intro herr
      cases hp : parse arg with
      | none => exact Or.inl rfl
      | some u =>
        rcases hcases u with hs | hs
        · exact absurd (hgood u hp hs).1 herr
        · exact Or.inr ⟨u, rfl, hs⟩
    · rintro (h | ⟨u, hu, h1, h2, h3⟩)
      · rw [hnone h]; simp
      · rw [hbad u hu h1 h2 h3]; simp
  · intro herr
    cases hp : parse arg with
    | none => rw [hnone hp]
    | some u =>
      rcases hcases u with hs | hs
      · exact absurd (hgood u hp hs).1 herr
      · rw [hbad u hp hs.1 hs.2.1 hs.2.2]
  · intro hok
    cases hp : parse arg with
    | none =>
      rw [hnone hp] at hok
      simp at hok
    | some u =>
      rcases hcases u with hs | hs
      · exact (hgood u hp hs).2
      · rw [hbad u hp hs.1 hs.2.1 hs.2.2] at hok
        simp at hok
  · intro u _ hu hftp
    apply hbad u hu <;> rw [hftp] <;> decide

/-- The token `ftp://example.com` in the sample of `url.Parse`. -/
theorem parseArg_error_spec_witness :
    sampleParse "ftp://example.com" = some { Scheme := "ftp", Host := "example.com" }
    ∧ parseArg sampleParse "ftp://example.com" = (none, some Error.unsupportedScheme) :=
  ⟨by decide,
   (parseArg_error_spec sampleParse "ftp://example.com").2.2.2.2.2
     { Scheme := "ftp", Host := "example.com" } rfl (by decide) rfl⟩

/-! ### The canonical pass of fetchAll -/

/-- The canonical pass on an empty list and on a list with a first link. -/
theorem canonicalLoop_step (str : URL → String) (l : HtmlLink) (rest : List HtmlLink)
    (u : URL) :
    (canonicalLoop str (l :: rest) u).1 =
      (canonicalLoop str rest
        (if l.Typ = "canonical" ∧ str l.Href ≠ str u then
          { u with Host := (resolveUrl u l.Href).Host }
         else u)).1 := by
  rw [canonicalLoop]
  by_cases ht : l.Typ = "canonical"
  · by_cases hd : str l.Href = str u
    · simp [ht, hd]
    · simp [ht, hd]
  · simp [ht]

/-- The canonical pass changes at most the host of the working URL. -/
theorem canonicalLoop_frame (str : URL → String) (links : List HtmlLink) :
    ∀ u : URL, (canonicalLoop str links u).1
      = { u with Host := (canonicalLoop str links u).1.Host } := by
  induction links with
  | nil =>
    intro u
    simp [canonicalLoop]
  | cons l rest ih =>
    intro u
    rw [canonicalLoop_step]
    by_cases hc : l.Typ = "canonical" ∧ str l.Href ≠ str u
    · rw [if_pos hc]
      have := ih { u with Host := (resolveUrl u l.Href).Host }
      rw [this]
    · rw [if_neg hc]
      exact ih u

/-- The canonical pass leaves the working URL as it is when no canonical
link differs from it. -/
theorem canonicalLoop_same (str : URL → String) (links : List HtmlLink) (u : URL)
    (h : ∀ l ∈ links, l.Typ = "canonical" → str l.Href = str u) :
    (canonicalLoop str links u).1 = u := by
  induction links with
  | nil => simp [canonicalLoop]
  | cons l rest ih =>
    rw [canonicalLoop_step]
    have hc : ¬ (l.Typ = "canonical" ∧ str l.Href ≠ str u) := by
      rintro ⟨h1, h2⟩
      exact h2 (h l (List.mem_cons_self _ _) h1)
    rw [if_neg hc]
    exact ih (fun m hm => h m (List.mem_cons_of_mem _ hm))

/-- When the string form of a URL determines its host, the step of the
canonical pass can as well be described with the test made on the resolved
link: the loop compares before it resolves, and with such a string form the
order makes no difference to the working URL. -/
theorem canonicalLoop_step_resolved (str : URL → String)
    (hhost : ∀ a b : URL, str a = str b → a.Host = b.Host)
    (l : HtmlLink) (rest : List HtmlLink) (u : URL) :
    (canonicalLoop str (l :: rest) u).1 =
      (canonicalLoop str rest
        (if l.Typ = "canonical" ∧ str (resolveUrl u l.Href) ≠ str u then
          { u with Host := (resolveUrl u l.Href).Host }
         else u)).1 := by
  rw [canonicalLoop_step]
  congr 2
  by_cases ht : l.Typ = "canonical"
  · by_cases h1 : str l.Href = str u
    · have hsame : (resolveUrl u l.Href).Host = u.Host := by
        rw [resolveUrl_host, hhost _ _ h1]
        split_ifs <;> rfl
      by_cases h2 : str (resolveUrl u l.Href) = str u
      · simp [ht, h1, h2]
      · simp [ht, h1, h2, hsame]
    · by_cases h2 : str (resolveUrl u l.Href) = str u
      · have hsame : (resolveUrl u l.Href).Host = u.Host := hhost _ _ h2
        simp [ht, h1, h2, hsame]
      · simp [ht, h1, h2]
  · simp [ht]

/-- C9: the canonical pass of `fetchAll` changes only the host of the
working URL (scheme, path and every other component stay); it goes through
the links in order, and at each canonical link whose string form differs
from that of the working URL the working host becomes the host of that link
resolved against the working URL; when no canonical link differs the working
URL is unchanged.  For the page `https://a.com/` with a canonical link
`https://b.com/` the working URL becomes `https://b.com/`, and the icon link
`/f.png` that follows is then emitted as `https://b.com/f.png`. -/
theorem canonicalLoop_spec {σ : Type} (lib : Lib σ) (links : List HtmlLink) (u : URL) :
    (canonicalLoop lib.str links u).1
        = { u with Host := (canonicalLoop lib.str links u).1.Host }
    ∧ (links = [] → (canonicalLoop lib.str links u).1 = u)
    ∧ (∀ l rest, links = l :: rest →
        (canonicalLoop lib.str links u).1 =
          (canonicalLoop lib.str rest
            (if l.Typ = "canonical" ∧ lib.str l.Href ≠ lib.str u then
              { u with Host := (resolveUrl u l.Href).Host }
             else u)).1)
    ∧ ((∀ l ∈ links, l.Typ = "canonical" → lib.str l.Href = lib.str u) →
        (canonicalLoop lib.str links u).1 = u)
    ∧ (u = pageA → links = canonicalLinks →
        lib.str { Scheme := "https", Host := "b.com", Path := "/" } ≠ lib.str pageA →
        lib.str { Scheme := "https", Host := "b.com", Path := "/f.png" }
          = "https://b.com/f.png" →
        (canonicalLoop lib.str links u).1 = { Scheme := "https", Host := "b.com", Path := "/" }
        ∧ ∀ (fuel : Nat) (w : σ),
            faviconsLoop lib fuel (canonicalLoop lib.str links u).1
                (canonicalLoop lib.str links u).2 [] w
              = Run.ret (["https://b.com/f.png"], w)) := by
  refine ⟨canonicalLoop_frame lib.str links u, ?_, ?_, canonicalLoop_same lib.str links u, ?_⟩
  · rintro rfl
    simp [canonicalLoop]
  · rintro l rest rfl
    exact canonicalLoop_step lib.str l rest u
  · rintro rfl rfl hne hstr
    have hres : resolveUrl pageA { Scheme := "https", Host := "b.com", Path := "/" }
        = { Scheme := "https", Host := "b.com", Path := "/" } := by decide
    have hres2 : resolveUrl { Scheme := "https", Host := "b.com", Path := "/" }
        { Scheme := "https", Host := "b.com", Path := "/" }
        = { Scheme := "https", Host := "b.com", Path := "/" } := by decide
    have hres3 : resolveUrl { Scheme := "https", Host := "b.com", Path := "/" }
        { Path := "/f.png" }
        = { Scheme := "https", Host := "b.com", Path := "/f.png" } := by decide
    have hloop : canonicalLoop lib.str canonicalLinks pageA
        = ({ Scheme := "https", Host := "b.com", Path := "/" },
           [{ Typ := "canonical", Href := { Scheme := "https", Host := "b.com", Path := "/" } },
            { Typ := "icon", Href := { Path := "/f.png" } }]) := by
      simp only [canonicalLinks, canonicalLoop, ne_eq, not_true_eq_false, if_false, hne,
        not_false_eq_true, if_true, hres]
      simp [pageA]
    rw [hloop]
    refine ⟨rfl, ?_⟩
    intro fuel w
    simp [faviconsLoop, parseFavIconsFromLinks, hres2, hres3, hstr]

/-- The page `https://a.com/` with the canonical link `https://b.com/` in
the sample library. -/
theorem canonicalLoop_spec_witness :
    sampleLib.str { Scheme := "https", Host := "b.com", Path := "/" } ≠ sampleLib.str pageA
    ∧ sampleLib.str { Scheme := "https", Host := "b.com", Path := "/f.png" }
        = "https://b.com/f.png"
    ∧ (canonicalLoop sampleLib.str canonicalLinks pageA).1
        = { Scheme := "https", Host := "b.com", Path := "/" }
    ∧ faviconsLoop sampleLib 1 (canonicalLoop sampleLib.str canonicalLinks pageA).1
          (canonicalLoop sampleLib.str canonicalLinks pageA).2 [] 0
        = Run.ret (["https://b.com/f.png"], 0) :=
  have h := (canonicalLoop_spec sampleLib canonicalLinks pageA).2.2.2.2 rfl rfl
    (by decide) (by decide)
  ⟨by decide, by decide, h.1, h.2 1 0⟩

/-! ### parseFavIconsFromLinks -/

/-- C10: `parseFavIconsFromLinks` dispatches on the kind of the link: an
`icon` link yields the one-element list with the string form of
`resolveUrl(u, target)`; a `canonical` link yields the empty list; a
`manifest` link yields the list of the manifest resolver run on the resolved
target, or the empty list when the resolver returns an error.  The element
`<link rel="icon" href="/f.png">` on the page `https://a.com/` yields
`https://a.com/f.png`, and `<link rel="apple-touch-icon" href="icon.png">`
on the page `https://a.com/dir` yields `https://a.com/dir/icon.png`. -/
theorem parseFavIconsFromLinks_spec {σ : Type} (lib : Lib σ) (fuel : Nat) (w : σ) (u : URL)
    (link : HtmlLink) :
    (link.Typ = "icon" →
        parseFavIconsFromLinks lib fuel w u link
          = Run.ret ([lib.str (resolveUrl u link.Href)], w))
    ∧ (link.Typ = "canonical" → parseFavIconsFromLinks lib fuel w u link = Run.ret ([], w))
    ∧ (link.Typ = "manifest" → ∀ favicons w1,
        fetchFaviconFromManifest lib fuel w (resolveUrl u link.Href)
          = Run.ret ((favicons, none), w1) →
        parseFavIconsFromLinks lib fuel w u link = Run.ret (favicons, w1))
    ∧ (link.Typ = "manifest" → ∀ favicons e w1,
        fetchFaviconFromManifest lib fuel w (resolveUrl u link.Href)
          = Run.ret ((favicons, some e), w1) →
        parseFavIconsFromLinks lib fuel w u link = Run.ret ([], w1))
    ∧ (lib.Parse "/f.png" = some { Path := "/f.png" } →
        lib.str { Scheme := "https", Host := "a.com", Path := "/f.png" }
          = "https://a.com/f.png" →
        ∃ l, newHtmlLinkFromLinkNode lib.Parse iconLinkNode = some l
          ∧ parseFavIconsFromLinks lib fuel w pageA l = Run.ret (["https://a.com/f.png"], w))
    ∧ (lib.Parse "icon.png" = some { Path := "icon.png" } →
        lib.str { Scheme := "https", Host := "a.com", Path := "/dir/icon.png" }
          = "https://a.com/dir/icon.png" →
        ∃ l, newHtmlLinkFromLinkNode lib.Parse touchLinkNode = some l
          ∧ parseFavIconsFromLinks lib fuel w pageDir l
              = Run.ret (["https://a.com/dir/icon.png"], w)) := by
  have hicon : ∀ (v : URL) (l : HtmlLink), l.Typ = "icon" →
      parseFavIconsFromLinks lib fuel w v l = Run.ret ([lib.str (resolveUrl v l.Href)], w) := by
    intro v l h
    unfold parseFavIconsFromLinks
    simp [h]
  refine ⟨hicon u link, ?_, ?_, ?_, ?_, ?_⟩
  · intro h
    unfold parseFavIconsFromLinks
    simp [h]
  · intro h favicons w1 hm
    unfold parseFavIconsFromLinks
    simp [h, hm]
  · intro h favicons e w1 hm
    unfold parseFavIconsFromLinks
    simp [h, hm]
  · intro hparse hstr
    refine ⟨{ Typ := "icon", Href := { Path := "/f.png" } }, ?_, ?_⟩
    · rw [newHtmlLinkFromLinkNode_one lib.Parse iconLinkNode "icon" "/f.png" (by decide)
        (by decide)]
      have hk : relKind "icon" = some "icon" := by decide
      simp [linkRecord, hparse, hk]
    · rw [hicon pageA _ rfl]
      have hres : resolveUrl pageA { Path := "/f.png" }
          = { Scheme := "https", Host := "a.com", Path := "/f.png" } := by decide
      simp only [hres, hstr]
  · intro hparse hstr
    refine ⟨{ Typ := "icon", Href := { Path := "icon.png" } }, ?_, ?_⟩
    · rw [newHtmlLinkFromLinkNode_one lib.Parse touchLinkNode "apple-touch-icon" "icon.png"
        (by decide) (by decide)]
      have hk : relKind "apple-touch-icon" = some "icon" := by decide
      simp [linkRecord, hparse, hk]
    · rw [hicon pageDir _ rfl]
      have hres : resolveUrl pageDir { Path := "icon.png" }
          = { Scheme := "https", Host := "a.com", Path := "/dir/icon.png" } := by decide
      simp only [hres, hstr]

/-- In the sample library: the two icon elements of the specification, a
manifest link whose manifest lists one parseable icon, and a manifest link
whose fetch fails. -/
theorem parseFavIconsFromLinks_spec_witness :
    (∃ l, newHtmlLinkFromLinkNode sampleLib.Parse iconLinkNode = some l
        ∧ parseFavIconsFromLinks sampleLib 0 0 pageA l = Run.ret (["https://a.com/f.png"], 0))
    ∧ (∃ l, newHtmlLinkFromLinkNode sampleLib.Parse touchLinkNode = some l
        ∧ parseFavIconsFromLinks sampleLib 0 0 pageDir l
            = Run.ret (["https://a.com/dir/icon.png"], 0))
    ∧ parseFavIconsFromLinks sampleLib 1 0 pageA
          { Typ := "manifest", Href := { Path := "/manifest.json" } }
        = Run.ret (["https://a.com/m1.png"], 1)
    ∧ parseFavIconsFromLinks sampleLib 1 0 pageA
          { Typ := "manifest", Href := { Path := "/gone" } }
        = Run.ret ([], 1) :=
  ⟨(parseFavIconsFromLinks_spec sampleLib 0 0 pageA
      { Typ := "icon", Href := {} }).2.2.2.2.1 (by decide) (by decide),
   (parseFavIconsFromLinks_spec sampleLib 0 0 pageA
      { Typ := "icon", Href := {} }).2.2.2.2.2 (by decide) (by decide),
   (parseFavIconsFromLinks_spec sampleLib 1 0 pageA
      { Typ := "manifest", Href := { Path := "/manifest.json" } }).2.2.1 rfl
      ["https://a.com/m1.png"] 1 (by decide),
   (parseFavIconsFromLinks_spec sampleLib 1 0 pageA
      { Typ := "manifest", Href := { Path := "/gone" } }).2.2.2.1 rfl []
      (Error.invalidStatus "https://a.com/gone" "404 Not Found" 404) 1 (by decide)⟩

/-! ### The icon loop of fetchFaviconFromManifest -/

/-- The URL string the icon loop emits for one manifest icon, if any. -/
theorem manifestIconLoop_acc (parse : String → Option URL) (str : URL → String) (u : URL)
    (icons : List ManifestIcon) :
    ∀ favicons : List String,
      manifestIconLoop parse str u icons favicons
        = favicons ++ icons.filterMap
            (fun icon => (parse icon.Src).map (fun srcUrl => str (resolveUrl u srcUrl))) := by
  induction icons with
  | nil =>
    intro favicons
    simp [manifestIconLoop]
  | cons icon rest ih =>
    intro favicons
    rw [manifestIconLoop]
    cases hp : parse icon.Src with
    | none => simp [ih, List.filterMap_cons, hp]
    | some srcUrl => simp [ih, List.filterMap_cons, hp]

/-- The number of strings a `filterMap` through an optional map keeps. -/
theorem length_filterMap_map {α β γ : Type} (f : α → Option β) (g : β → γ) (l : List α) :
    (l.filterMap (fun a => (f a).map g)).length = (l.filter (fun a => (f a).isSome)).length := by
  induction l with
  | nil => rfl
  | cons a rest ih =>
    cases h : f a with
    | none => simp [List.filterMap_cons, List.filter_cons, h, ih]
    | some b => simp [List.filterMap_cons, List.filter_cons, h, ih]

/-- A split at a character never gives the empty list of pieces. -/
theorem splitChars_ne_nil (sep : Char) (cs : List Char) : splitChars sep cs ≠ [] := by
  cases cs with
  | nil => simp [splitChars]
  | cons c rest =>
    rw [splitChars]
    by_cases h : c = sep
    · simp [h]
    · simp only [h, if_false]
      cases splitChars sep rest <;> simp

/-- The call `strings.Split` returns at least one piece. -/
theorem stringsSplit_ne_nil (s : String) (sep : Char) : stringsSplit s sep ≠ [] := by
  unfold stringsSplit
  simp [splitChars_ne_nil]

/-- The call `fetchFaviconFromManifest` when the fetch returns a response
of type `application/json` whose body is read and decoded. -/
theorem fetchFaviconFromManifest_decoded {σ : Type} (lib : Lib σ) (fuel : Nat) (w w1 : σ)
    (u : URL) (finalUrl : String) (resp : Response) (rest : List String) (body : String)
    (manifest : Manifest)
    (hfetch : fetchUrl lib.Get fuel w (lib.str u)
      = Run.ret ({ url := finalUrl, resp := some resp, err := none }, w1))
    (htype : stringsSplit resp.ContentType ';' = "application/json" :: rest)
    (hbody : resp.Body = Res.ok body) (hdec : lib.Unmarshal body = Res.ok manifest) :
    fetchFaviconFromManifest lib fuel w u
      = Run.ret ((manifestIconLoop lib.Parse lib.str u manifest.Icons [], none), w1) := by
  unfold fetchFaviconFromManifest
  rw [hfetch]
  simp only [htype, hbody, hdec, ne_eq, not_true_eq_false, if_false]

/-- C11: for every manifest URL `u` and every decoded manifest, the icon
loop of `fetchFaviconFromManifest` returns, in manifest order, the string
form of `resolveUrl(u, parse(src))` for exactly the icons whose `src`
parses; an icon whose `src` fails to parse is skipped and the call still
returns its list without error, so the length of the list is the number of
parseable `src` values; the icons `/m1.png` and an unparseable `src` yield
exactly one URL. -/
theorem manifestIconLoop_spec {σ : Type} (lib : Lib σ) (u : URL) (manifest : Manifest) :
    manifestIconLoop lib.Parse lib.str u manifest.Icons []
        = manifest.Icons.filterMap
            (fun icon => (lib.Parse icon.Src).map (fun srcUrl => lib.str (resolveUrl u srcUrl)))
    ∧ (manifestIconLoop lib.Parse lib.str u manifest.Icons []).length
        = (manifest.Icons.filter (fun icon => (lib.Parse icon.Src).isSome)).length
    ∧ (∀ (fuel : Nat) (w w1 : σ) (finalUrl : String) (resp : Response) (rest : List String)
        (body : String),
        fetchUrl lib.Get fuel w (lib.str u)
          = Run.ret ({ url := finalUrl, resp := some resp, err := none }, w1) →
        stringsSplit resp.ContentType ';' = "application/json" :: rest →
        resp.Body = Res.ok body → lib.Unmarshal body = Res.ok manifest →
        fetchFaviconFromManifest lib fuel w u
          = Run.ret ((manifest.Icons.filterMap
              (fun icon => (lib.Parse icon.Src).map
                (fun srcUrl => lib.str (resolveUrl u srcUrl))), none), w1))
    ∧ (∀ (bad : String) (m1 : URL), lib.Parse "/m1.png" = some m1 → lib.Parse bad = none →
        manifest.Icons = [{ Src := "/m1.png" }, { Src := bad }] →
        manifestIconLoop lib.Parse lib.str u manifest.Icons [] = [lib.str (resolveUrl u m1)]) := by
  have hacc := manifestIconLoop_acc lib.Parse lib.str u manifest.Icons []
  rw [List.nil_append] at hacc
  refine ⟨hacc, ?_, ?_, ?_⟩
  · rw [hacc, length_filterMap_map]
  · intro fuel w w1 finalUrl resp rest body hfetch htype hbody hdec
    rw [fetchFaviconFromManifest_decoded lib fuel w w1 u finalUrl resp rest body manifest
      hfetch htype hbody hdec, hacc]
  · intro bad m1 h1 h2 hicons
    rw [hacc, hicons]
    simp [List.filterMap_cons, h1, h2]

/-- In the sample library the manifest at `https://a.com/manifest.json`
lists `/m1.png` and the unparseable `%zz`; the resolver returns one URL. -/
theorem manifestIconLoop_spec_witness :
    sampleLib.Parse "/m1.png" = some { Path := "/m1.png" }
    ∧ sampleLib.Parse "%zz" = none
    ∧ manifestIconLoop sampleLib.Parse sampleLib.str
          { Scheme := "https", Host := "a.com", Path := "/manifest.json" }
          [{ Src := "/m1.png" }, { Src := "%zz" }] []
        = ["https://a.com/m1.png"]
    ∧ fetchFaviconFromManifest sampleLib 1 0
          { Scheme := "https", Host := "a.com", Path := "/manifest.json" }
        = Run.ret ((["https://a.com/m1.png"], none), 1) :=
  ⟨by decide, by decide,
   (manifestIconLoop_spec sampleLib
      { Scheme := "https", Host := "a.com", Path := "/manifest.json" }
      { Icons := [{ Src := "/m1.png" }, { Src := "%zz" }] }).2.2.2 "%zz" { Path := "/m1.png" }
      (by decide) (by decide) rfl,
   by decide⟩

/-! ### The redirect loop has no bound -/

/-- Along requests that are all answered by redirects, a chain of any
length is followed. -/
theorem Reaches_of_redirects {σ : Type} (get : σ → String → Res Response × σ)
    (P : σ → String → Prop)
    (hP : ∀ w u, P w u → ∃ r w1, get w u = (Res.ok r, w1) ∧ 300 ≤ r.StatusCode
      ∧ r.StatusCode < 400 ∧ r.Location ≠ "" ∧ P w1 r.Location) :
    ∀ (n : Nat) (w : σ) (u0 : String), P w u0 →
      ∃ ls u w1, ls.length = n ∧ Reaches get w u0 ls u w1 ∧ P w1 u := by
  intro n
  induction n with
  | zero =>
    intro w u0 h0
    exact ⟨[], u0, w, rfl, ⟨rfl, rfl⟩, h0⟩
  | succ n ih =>
    intro w u0 h0
    obtain ⟨r, w1, hg, h3, h4, hl, hnext⟩ := hP w u0 h0
    obtain ⟨ls, u, w2, hlen, hreach, hend⟩ := ih w1 r.Location hnext
    exact ⟨r.Location :: ls, u, w2, by simp [hlen], ⟨r, w1, hg, h3, h4, rfl, hl, hreach⟩, hend⟩

/-- Along requests that are all answered by redirects, `fetchUrl` uses up
any fuel. -/
theorem fetchUrl_diverge {σ : Type} (get : σ → String → Res Response × σ)
    (P : σ → String → Prop)
    (hP : ∀ w u, P w u → ∃ r w1, get w u = (Res.ok r, w1) ∧ 300 ≤ r.StatusCode
      ∧ r.StatusCode < 400 ∧ r.Location ≠ "" ∧ P w1 r.Location) :
    ∀ (fuel : Nat) (w : σ) (u0 : String), P w u0 → fetchUrl get fuel w u0 = Run.diverge := by
  intro fuel
  induction fuel with
  | zero =>
    intro w u0 _
    rw [fetchUrl]
  | succ fuel ih =>
    intro w u0 h0
    obtain ⟨r, w1, hg, h3, h4, hl, hnext⟩ := hP w u0 h0
    rw [fetchUrl_succ, fetchUrlIter_redirect get w w1 u0 r hg h3 h4 hl]
    exact ih w1 r.Location hnext

/-- C16: `fetchUrl` puts no bound on the redirect chain.  When every
request the loop comes to make (the requests in `P`, which may be all
requests, or the one URL that redirects to itself) is answered with a
status in [300,400) and a non-empty `Location`, `fetchUrl` returns for no
amount of fuel, and for every `n` the loop has followed `n` redirects and is
about to make a further request. -/
theorem fetchUrl_unbounded {σ : Type} (get : σ → String → Res Response × σ)
    (P : σ → String → Prop)
    (hP : ∀ w u, P w u → ∃ r w1, get w u = (Res.ok r, w1) ∧ 300 ≤ r.StatusCode
      ∧ r.StatusCode < 400 ∧ r.Location ≠ "" ∧ P w1 r.Location)
    (w : σ) (u0 : String) (h0 : P w u0) :
    (∀ fuel, fetchUrl get fuel w u0 = Run.diverge)
    ∧ (∀ fuel res, fetchUrl get fuel w u0 ≠ Run.ret res)
    ∧ (∀ n, ∃ ls u w1, ls.length = n ∧ Reaches get w u0 ls u w1
        ∧ ∃ r w2, get w1 u = (Res.ok r, w2) ∧ 300 ≤ r.StatusCode ∧ r.StatusCode < 400
          ∧ r.Location ≠ "") := by
  refine ⟨fun fuel => fetchUrl_diverge get P hP fuel w u0 h0, ?_, ?_⟩
  · intro fuel res h
    rw [fetchUrl_diverge get P hP fuel w u0 h0] at h
    cases h
  · intro n
    obtain ⟨ls, u, w1, hlen, hreach, hend⟩ := Reaches_of_redirects get P hP n w u0 h0
    obtain ⟨r, w2, hg, h3, h4, hl, _⟩ := hP w1 u hend
    exact ⟨ls, u, w1, hlen, hreach, r, w2, hg, h3, h4, hl⟩

/-- In the sample network `https://a.com/loop` redirects to itself, and
`fetchUrl` has not returned after a hundred requests. -/
theorem fetchUrl_unbounded_witness :
    (∀ w : Nat, sampleGet w "https://a.com/loop"
        = (Res.ok { Status := "301 Moved Permanently", StatusCode := 301,
                    Location := "https://a.com/loop" }, w + 1))
    ∧ fetchUrl sampleGet 100 0 "https://a.com/loop" = Run.diverge :=
  ⟨fun _ => rfl,
   (fetchUrl_unbounded sampleGet (fun _ u => u = "https://a.com/loop")
      (fun w u hu =>
        ⟨{ Status := "301 Moved Permanently", StatusCode := 301,
           Location := "https://a.com/loop" }, w + 1,
         by subst hu; rfl, by decide, by decide, by decide, rfl⟩)
      0 "https://a.com/loop" rfl).1 100⟩

/-! ### resolveUrl on well-formed bases, and applied twice -/

/-- A string that starts with `/` still does so with anything appended. -/
theorem startsWith_append (a b : String) (h : startsWith a "/" = true) :
    startsWith (a ++ b) "/" = true := by
  obtain ⟨rest, rfl⟩ := (startsWith_slash_iff a).mp h
  exact (startsWith_slash_iff _).mpr ⟨rest ++ b, by rw [String.append_assoc]⟩

/-- The path `base.Path ++ "/" ++ p` starts with `/` when `base.Path` is
empty or starts with `/`. -/
theorem startsWith_joined (a p : String) (h : a = "" ∨ startsWith a "/" = true) :
    startsWith (a ++ "/" ++ p) "/" = true := by
  rcases h with h | h
  · subst h
    exact (startsWith_slash_iff _).mpr ⟨p, by rw [String.empty_append]⟩
  · rw [String.append_assoc]
    exact startsWith_append a _ h

/-- The result of `resolveUrl` against a base with a scheme, a host and a
path that is empty or starts with `/` has a scheme, a host and a path that
starts with `/`. -/
theorem resolveUrl_isAbsolute (base ref : URL) (hs : base.Scheme ≠ "") (hh : base.Host ≠ "")
    (hp : base.Path = "" ∨ startsWith base.Path "/" = true) :
    Absolute (resolveUrl base ref) := by
  rw [resolveUrl_eq]
  refine ⟨?_, ?_, ?_⟩
  · by_cases h : ref.Scheme = ""
    · simpa [h] using hs
    · simp [h]
  · by_cases h : ref.Host = ""
    · simpa [h] using hh
    · simp [h]
  · by_cases h : startsWith ref.Path "/" = true
    · simp [h]
    · simpa [h] using startsWith_joined base.Path ref.Path hp

/-- A URL with a path that starts with `/`, and with a scheme and a host
wherever the base has one, is left as it is by `resolveUrl`. -/
theorem resolveUrl_fixed (base r : URL) (hp : startsWith r.Path "/" = true)
    (hs : r.Scheme = "" → base.Scheme = "") (hh : r.Host = "" → base.Host = "") :
    resolveUrl base r = r := by
  rw [resolveUrl_eq]
  obtain ⟨sc, op, us, ho, pa, rp, oh, fq, rq, fr, rf⟩ := r
  dsimp only at hp hs hh ⊢
  by_cases h1 : sc = "" <;> by_cases h2 : ho = "" <;> simp [hp, h1, h2, hs, hh]

/-- C17: for every base URL with a non-empty scheme, a non-empty host and a
path that is empty or starts with `/`, and every reference URL, the result
of `resolveUrl` has a non-empty scheme, a non-empty host and a path that
starts with `/`; so the URL an icon link emits against such a working URL,
and every URL the icon loop emits for a manifest fetched at a target
resolved against it, is the string form of such an absolute URL. -/
theorem resolveUrl_absolute (base ref : URL) (hs : base.Scheme ≠ "") (hh : base.Host ≠ "")
    (hp : base.Path = "" ∨ startsWith base.Path "/" = true) :
    ((resolveUrl base ref).Scheme ≠ "" ∧ (resolveUrl base ref).Host ≠ ""
        ∧ startsWith (resolveUrl base ref).Path "/" = true)
    ∧ (∀ {σ : Type} (lib : Lib σ) (fuel : Nat) (w : σ) (link : HtmlLink), link.Typ = "icon" →
        ∃ r, Absolute r ∧ parseFavIconsFromLinks lib fuel w base link = Run.ret ([lib.str r], w))
    ∧ (∀ (parse : String → Option URL) (str : URL → String) (icons : List ManifestIcon)
        (s : String), s ∈ manifestIconLoop parse str (resolveUrl base ref) icons [] →
        ∃ r, Absolute r ∧ s = str r) := by
  have habs := resolveUrl_isAbsolute base ref hs hh hp
  refine ⟨habs, ?_, ?_⟩
  · intro σ lib fuel w link hicon
    refine ⟨resolveUrl base link.Href, resolveUrl_isAbsolute base link.Href hs hh hp, ?_⟩
    unfold parseFavIconsFromLinks
    simp [hicon]
  · intro parse str icons s hmem
    rw [manifestIconLoop_acc, List.nil_append, List.mem_filterMap] at hmem
    obtain ⟨icon, _, hicon⟩ := hmem
    cases hsrc : parse icon.Src with
    | none => simp [hsrc] at hicon
    | some srcUrl =>
      simp only [hsrc, Option.map_some', Option.some.injEq] at hicon
      exact ⟨resolveUrl (resolveUrl base ref) srcUrl,
        resolveUrl_isAbsolute _ srcUrl habs.1 habs.2.1 (Or.inr habs.2.2), hicon.symm⟩

/-- The page `https://a.com/dir` and the reference `icon.png`. -/
theorem resolveUrl_absolute_witness :
    pageDir.Scheme ≠ "" ∧ pageDir.Host ≠ "" ∧ startsWith pageDir.Path "/" = true
    ∧ resolveUrl pageDir { Path := "icon.png" }
        = { Scheme := "https", Host := "a.com", Path := "/dir/icon.png" }
    ∧ startsWith (resolveUrl pageDir { Path := "icon.png" }).Path "/" = true :=
  ⟨by decide, by decide, by decide, by decide,
   (resolveUrl_absolute pageDir { Path := "icon.png" } (by decide) (by decide)
      (Or.inr (by decide))).1.2.2⟩

/-- The string `a ++ "/" ++ p` is never `p`. -/
theorem joined_ne (a p : String) : a ++ "/" ++ p ≠ p := by
  intro h
  have hlen := congrArg String.length h
  simp only [String.length_append] at hlen
  have h1 : ("/" : String).length = 1 := rfl
  omega

/-- C14 as stated fails: against the base with path `a`, the reference with
path `b` resolves to the path `a/b`, and resolving that again gives the path
`a/a/b`. -/
theorem resolveUrl_idempotent_counterexample :
    resolveUrl { Path := "a" } { Path := "b" } = { Path := "a/b" }
    ∧ resolveUrl { Path := "a" } (resolveUrl { Path := "a" } { Path := "b" })
        = { Path := "a/a/b" }
    ∧ resolveUrl { Path := "a" } (resolveUrl { Path := "a" } { Path := "b" })
        ≠ resolveUrl { Path := "a" } { Path := "b" } := by
  decide

/-- C14 (amended): applying `resolveUrl` to an already resolved target
leaves it unchanged exactly when the resolved path starts with `/`, which
is so for every base whose path is empty or starts with `/` and for every
reference whose path starts with `/`; in these cases it is also unchanged
when the host of the base has been replaced by the host of the resolved
target between the two applications, as the canonical pass of `fetchAll`
does. -/
theorem resolveUrl_idempotent (base ref : URL) :
    (resolveUrl base (resolveUrl base ref) = resolveUrl base ref
        ↔ startsWith (resolveUrl base ref).Path "/" = true)
    ∧ ((base.Path = "" ∨ startsWith base.Path "/" = true ∨ startsWith ref.Path "/" = true) →
        resolveUrl base (resolveUrl base ref) = resolveUrl base ref
        ∧ resolveUrl { base with Host := (resolveUrl base ref).Host } (resolveUrl base ref)
            = resolveUrl base ref) := by
  have hsch : (resolveUrl base ref).Scheme = "" → base.Scheme = "" := by
    rw [resolveUrl_eq]
    by_cases h : ref.Scheme = "" <;> simp [h]
  have hhost : (resolveUrl base ref).Host = "" → base.Host = "" := by
    rw [resolveUrl_eq]
    by_cases h : ref.Host = "" <;> simp [h]
  have hpath : (base.Path = "" ∨ startsWith base.Path "/" = true
      ∨ startsWith ref.Path "/" = true) → startsWith (resolveUrl base ref).Path "/" = true := by
    intro h
    rw [resolveUrl_eq]
    by_cases hr : startsWith ref.Path "/" = true
    · simp [hr]
    · have hb : base.Path = "" ∨ startsWith base.Path "/" = true := by
        rcases h with h | h | h
        · exact Or.inl h
        · exact Or.inr h
        · exact absurd h hr
      simpa [hr] using startsWith_joined base.Path ref.Path hb
  refine ⟨⟨?_, ?_⟩, ?_⟩
  · intro heq
    by_contra hn
    have hP := congrArg URL.Path heq
    rw [resolveUrl_eq base (resolveUrl base ref)] at hP
    simp only [hn, Bool.false_eq_true, if_false] at hP
    exact joined_ne _ _ hP
  · intro hp
    exact resolveUrl_fixed base _ hp hsch hhost
  · intro h
    refine ⟨resolveUrl_fixed base _ (hpath h) hsch hhost, ?_⟩
    apply resolveUrl_fixed _ _ (hpath h)
    · intro hs
      exact hsch hs
    · intro hh
      exact hh

/-- The page `https://a.com/dir` and the reference `icon.png`, resolved
twice. -/
theorem resolveUrl_idempotent_witness :
    startsWith pageDir.Path "/" = true
    ∧ resolveUrl pageDir { Path := "icon.png" }
        = { Scheme := "https", Host := "a.com", Path := "/dir/icon.png" }
    ∧ resolveUrl pageDir (resolveUrl pageDir { Path := "icon.png" })
        = resolveUrl pageDir { Path := "icon.png" } :=
  ⟨by decide, by decide,
   ((resolveUrl_idempotent pageDir { Path := "icon.png" }).2
      (Or.inr (Or.inl (by decide)))).1⟩

/-! ### parseArg applied twice -/

/-- A URL returned by `parseArg` has the scheme `http` or `https`, and has
an empty path whenever it has an empty host. -/
theorem parseArg_output (parse : String → Option URL) (arg : String) (u1 : URL)
    (h : parseArg parse arg = (some u1, none)) :
    (u1.Scheme = "http" ∨ u1.Scheme = "https") ∧ (u1.Host = "" → u1.Path = "") := by
  cases hp : parse arg with
  | none =>
    unfold parseArg at h
    rw [hp] at h
    simp at h
  | some u =>
    by_cases hs : u.Scheme = "" ∨ u.Scheme = "http" ∨ u.Scheme = "https"
    · rw [parseArg_accept parse arg u hp hs] at h
      simp only [Prod.mk.injEq, Option.some.injEq, and_true] at h
      subst h
      dsimp only
      by_cases hc : u.Host = "" ∧ u.Path ≠ ""
      · rcases hs with h1 | h1 | h1 <;> simp [h1, hc]
      · have hc2 : u.Host = "" → u.Path = "" := fun hh => by
          by_contra hne
          exact hc ⟨hh, hne⟩
        rcases hs with h1 | h1 | h1 <;> simp [h1, hc] <;> exact hc2
    · simp only [not_or] at hs
      unfold parseArg at h
      rw [hp] at h
      simp [hs.1, hs.2.1, hs.2.2] at h

/-- C15: normalisation is idempotent wherever the string form of the
normalised URL is not ambiguous: when `parseArg` accepts a token with the
URL `u1`, and the string form of `u1` parses to a URL with the scheme, host
and path of `u1`, then `parseArg` applied to that string form succeeds and
returns that URL, with the same scheme, host and path as the first
application; when the string form does not parse, the second application
fails with `invalidUrl`. -/
theorem parseArg_idempotent (parse : String → Option URL) (str : URL → String)
    (arg : String) (u1 : URL) (h1 : parseArg parse arg = (some u1, none)) :
    (∀ u2, parse (str u1) = some u2 →
        u2.Scheme = u1.Scheme → u2.Host = u1.Host → u2.Path = u1.Path →
        parseArg parse (str u1) = (some u2, none)
        ∧ ∃ u3, parseArg parse (str u1) = (some u3, none)
          ∧ u3.Scheme = u1.Scheme ∧ u3.Host = u1.Host ∧ u3.Path = u1.Path)
    ∧ (parse (str u1) = some u1 → parseArg parse (str u1) = parseArg parse arg)
    ∧ (parse (str u1) = none → parseArg parse (str u1) = (none, some Error.invalidUrl)) := by
  obtain ⟨hsch, hhost⟩ := parseArg_output parse arg u1 h1
  have hfix : ∀ u2, parse (str u1) = some u2 →
      u2.Scheme = u1.Scheme → u2.Host = u1.Host → u2.Path = u1.Path →
      parseArg parse (str u1) = (some u2, none) := by
    intro u2 hp2 e1 e2 e3
    have hs2 : u2.Scheme = "" ∨ u2.Scheme = "http" ∨ u2.Scheme = "https" := by
      rw [e1]
      exact Or.inr hsch
    rw [parseArg_accept parse (str u1) u2 hp2 hs2]
    have hne : u2.Scheme ≠ "" := by
      rw [e1]
      rcases hsch with h | h <;> rw [h] <;> decide
    have hc : ¬ (u2.Host = "" ∧ u2.Path ≠ "") := by
      rintro ⟨hh, hpne⟩
      rw [e2] at hh
      rw [e3] at hpne
      exact hpne (hhost hh)
    simp [hne, hc]
  refine ⟨?_, ?_, ?_⟩
  · intro u2 hp2 e1 e2 e3
    exact ⟨hfix u2 hp2 e1 e2 e3, u2, hfix u2 hp2 e1 e2 e3, e1, e2, e3⟩
  · intro hp
    rw [hfix u1 hp rfl rfl rfl, h1]
  · intro hp
    unfold parseArg
    rw [hp]

/-- The token `example.com`: its normalised form prints as
`https://example.com`, which normalises to the same URL. -/
theorem parseArg_idempotent_witness :
    parseArg sampleParse "example.com"
        = (some { Scheme := "https", Host := "example.com" }, none)
    ∧ sampleStr { Scheme := "https", Host := "example.com" } = "https://example.com"
    ∧ sampleParse "https://example.com" = some { Scheme := "https", Host := "example.com" }
    ∧ parseArg sampleParse "https://example.com"
        = (some { Scheme := "https", Host := "example.com" }, none) :=
  ⟨by decide, by decide, by decide,
   ((parseArg_idempotent sampleParse sampleStr "example.com"
      { Scheme := "https", Host := "example.com" } (by decide)).1
      { Scheme := "https", Host := "example.com" } (by decide) rfl rfl rfl).1⟩

/-! ### fetchAll: the domain-root fallback and the icon list -/

/-- A chain that reaches a request answered with a status in [200,300)
makes `fetchUrl` return that response, given fuel for the requests. -/
theorem fetchUrl_reaches_ok {σ : Type} (get : σ → String → Res Response × σ) (w : σ)
    (u0 : String) (ls : List String) (u : String) (w1 : σ) (final : Response) (w2 : σ)
    (fuel : Nat) (hchain : Reaches get w u0 ls u w1) (hget : get w1 u = (Res.ok final, w2))
    (h200 : 200 ≤ final.StatusCode) (h300 : final.StatusCode < 300)
    (hfuel : ls.length < fuel) :
    fetchUrl get fuel w u0 = Run.ret ({ url := u, resp := some final, err := none }, w2) := by
  obtain ⟨k, rfl⟩ : ∃ k, fuel = ls.length + (k + 1) := ⟨fuel - ls.length - 1, by omega⟩
  rw [fetchUrl_along get ls w u0 u w1 (k + 1) hchain, fetchUrl_succ,
    fetchUrlIter_ok get w1 w2 u final hget h200 h300]

/-- The function `fetchFaviconFromDomainRoot` in terms of the result of
its fetch: the candidate URL without error, or the error of the fetch. -/
theorem fetchFaviconFromDomainRoot_eq {σ : Type} (lib : Lib σ) (fuel : Nat) (w w1 : σ)
    (u : URL) (res : FetchResult)
    (hfetch : fetchUrl lib.Get fuel w (rootUrl u) = Run.ret (res, w1)) :
    fetchFaviconFromDomainRoot lib fuel w u
      = Run.ret ((if res.err = none then rootUrl u else "", res.err), w1) := by
  have hiff := fetchUrl_err_iff_no_resp lib.Get fuel w (rootUrl u) res w1 hfetch
  unfold fetchFaviconFromDomainRoot
  unfold rootUrl at hfetch
  simp only [hfetch]
  cases he : res.err with
  | some e => simp
  | none =>
    cases hr : res.resp with
    | none =>
      rw [he, hr] at hiff
      simp at hiff
    | some resp => simp [rootUrl]

/-- The function `fetchFaviconFromDomainRoot` returns only when its fetch
does. -/
theorem fetchFaviconFromDomainRoot_ret {σ : Type} (lib : Lib σ) (fuel : Nat) (w w1 : σ)
    (u : URL) (out : String × Option Error)
    (h : fetchFaviconFromDomainRoot lib fuel w u = Run.ret (out, w1)) :
    ∃ res, fetchUrl lib.Get fuel w (rootUrl u) = Run.ret (res, w1) := by
  cases hf : fetchUrl lib.Get fuel w (rootUrl u) with
  | diverge =>
    unfold fetchFaviconFromDomainRoot at h
    unfold rootUrl at hf
    simp [hf] at h
  | panic =>
    unfold fetchFaviconFromDomainRoot at h
    unfold rootUrl at hf
    simp [hf] at h
  | ret v =>
    obtain ⟨res, w2⟩ := v
    rw [fetchFaviconFromDomainRoot_eq lib fuel w w2 u res hf] at h
    simp only [Run.ret.injEq, Prod.mk.injEq] at h
    rw [← h.2]
    exact ⟨res, rfl⟩

/-- The end of `fetchAll` in terms of the result of the domain-root fetch:
no error is returned, the working URL is reported, and the candidate is
appended to the icons exactly when its fetch had no error. -/
theorem fetchAllTail_eq {σ : Type} (lib : Lib σ) (fuel : Nat) (orig u : URL)
    (favicons : List String) (w w1 : σ) (res : FetchResult)
    (hfetch : fetchUrl lib.Get fuel w (rootUrl u) = Run.ret (res, w1)) :
    ∃ r, fetchAllTail lib fuel orig u favicons w = Run.ret (r, w1) ∧ r.err = none
      ∧ r.redirectUrl = u
      ∧ r.favicons = favicons ++ (if res.err = none then [rootUrl u] else []) := by
  unfold fetchAllTail
  rw [fetchFaviconFromDomainRoot_eq lib fuel w w1 u res hfetch]
  cases he : res.err with
  | some e => exact ⟨_, rfl, rfl, rfl, by simp⟩
  | none => exact ⟨_, rfl, rfl, rfl, by simp⟩

/-- The end of `fetchAll` returns only when the domain-root fetch does. -/
theorem fetchAllTail_ret {σ : Type} (lib : Lib σ) (fuel : Nat) (orig u : URL)
    (favicons : List String) (w w1 : σ) (r : FetchAllResult)
    (h : fetchAllTail lib fuel orig u favicons w = Run.ret (r, w1)) :
    ∃ res, fetchUrl lib.Get fuel w (rootUrl u) = Run.ret (res, w1) ∧ r.err = none
      ∧ r.redirectUrl = u
      ∧ r.favicons = favicons ++ (if res.err = none then [rootUrl u] else []) := by
  cases hd : fetchFaviconFromDomainRoot lib fuel w u with
  | diverge =>
    unfold fetchAllTail at h
    simp [hd] at h
  | panic =>
    unfold fetchAllTail at h
    simp [hd] at h
  | ret v =>
    obtain ⟨out, w2⟩ := v
    obtain ⟨res, hres⟩ := fetchFaviconFromDomainRoot_ret lib fuel w w2 u out hd
    obtain ⟨r2, hr2, h1, h2, h3⟩ := fetchAllTail_eq lib fuel orig u favicons w w2 res hres
    rw [hr2] at h
    simp only [Run.ret.injEq, Prod.mk.injEq] at h
    obtain ⟨hr, hw⟩ := h
    subst hr hw
    exact ⟨res, hres, h1, h2, h3⟩

/-- The second loop of `fetchAll` returns exactly the accumulated list
followed by the lists of the links, concatenated in order. -/
theorem faviconsLoop_iff {σ : Type} (lib : Lib σ) (fuel : Nat) (u : URL)
    (links : List HtmlLink) :
    ∀ (acc : List String) (w : σ) (fs : List String) (w2 : σ),
      faviconsLoop lib fuel u links acc w = Run.ret (fs, w2)
        ↔ ∃ parts, PartsOf lib fuel u links w parts w2 ∧ fs = acc ++ parts.flatten := by
  induction links with
  | nil =>
    intro acc w fs w2
    rw [faviconsLoop]
    constructor
    · intro h
      simp only [Run.ret.injEq, Prod.mk.injEq] at h
      exact ⟨[], h.2.symm, by simp [h.1]⟩
    · rintro ⟨parts, hparts, hfs⟩
      cases parts with
      | nil =>
        simp only [PartsOf] at hparts
        simp [hfs, hparts]
      | cons p ps => simp [PartsOf] at hparts
  | cons link rest ih =>
    intro acc w fs w2
    rw [faviconsLoop]
    cases hp : parseFavIconsFromLinks lib fuel w u link with
    | diverge =>
      constructor
      · intro h
        simp at h
      · rintro ⟨parts, hparts, _⟩
        cases parts with
        | nil => simp [PartsOf] at hparts
        | cons p ps =>
          simp only [PartsOf, hp] at hparts
          obtain ⟨_, hbad, _⟩ := hparts
          cases hbad
    | panic =>
      constructor
      · intro h
        simp at h
      · rintro ⟨parts, hparts, _⟩
        cases parts with
        | nil => simp [PartsOf] at hparts
        | cons p ps =>
          simp only [PartsOf, hp] at hparts
          obtain ⟨_, hbad, _⟩ := hparts
          cases hbad
    | ret v =>
      obtain ⟨part, w1⟩ := v
      simp only
      rw [ih (acc ++ part) w1 fs w2]
      constructor
      · rintro ⟨ps, hps, hfs⟩
        refine ⟨part :: ps, ?_, ?_⟩
        · simp only [PartsOf]
          exact ⟨w1, hp, hps⟩
        · simp [hfs]
      · rintro ⟨parts, hparts, hfs⟩
        cases parts with
        | nil => simp [PartsOf] at hparts
        | cons p ps =>
          simp only [PartsOf, hp, Run.ret.injEq, Prod.mk.injEq] at hparts
          obtain ⟨w3, ⟨hpe, hwe⟩, hps⟩ := hparts
          subst hpe hwe
          exact ⟨ps, hps, by simp [hfs]⟩

/-- The canonical pass keeps the links in order with their kinds, and
leaves every link that is not canonical as it is. -/
theorem canonicalLoop_links (str : URL → String) (links : List HtmlLink) :
    ∀ u : URL, List.Forall₂ (fun a b => b.Typ = a.Typ ∧ (a.Typ ≠ "canonical" → b = a))
      links (canonicalLoop str links u).2 := by
  induction links with
  | nil =>
    intro u
    simp [canonicalLoop]
  | cons l rest ih =>
    intro u
    rw [canonicalLoop]
    by_cases ht : l.Typ = "canonical"
    · by_cases hd : str l.Href = str u
      · simp only [ht, hd, ne_eq, not_true_eq_false, if_false]
        exact List.Forall₂.cons ⟨rfl, fun h => absurd ht h⟩ (ih u)
      · simp only [ht, hd, ne_eq, not_true_eq_false, not_false_eq_true, if_true, if_false]
        exact List.Forall₂.cons ⟨ht.symm, fun h => absurd ht h⟩ (ih _)
    · simp only [ht, ne_eq, not_false_eq_true, if_true]
      exact List.Forall₂.cons ⟨rfl, fun _ => rfl⟩ (ih u)

/-- The list `parseFavIconsFromLinks` returns, by the kind of the link. -/
theorem parseFavIconsFromLinks_kinds {σ : Type} (lib : Lib σ) (fuel : Nat) (w w1 : σ)
    (u : URL) (link : HtmlLink) (part : List String)
    (h : parseFavIconsFromLinks lib fuel w u link = Run.ret (part, w1)) :
    (link.Typ = "icon" → part = [lib.str (resolveUrl u link.Href)] ∧ w1 = w)
    ∧ (link.Typ = "canonical" → part = [] ∧ w1 = w)
    ∧ (link.Typ = "manifest" → ∃ favicons err,
        fetchFaviconFromManifest lib fuel w (resolveUrl u link.Href)
          = Run.ret ((favicons, err), w1)
        ∧ part = if err = none then favicons else []) := by
  unfold parseFavIconsFromLinks at h
  refine ⟨?_, ?_, ?_⟩
  · intro ht
    simp only [ht, if_true, Run.ret.injEq, Prod.mk.injEq] at h
    exact ⟨h.1.symm, h.2.symm⟩
  · intro ht
    have h1 : ¬ ("canonical" = "icon") := by decide
    have h2 : ¬ ("canonical" = "manifest") := by decide
    simp only [ht, h1, h2, if_false, Run.ret.injEq, Prod.mk.injEq] at h
    exact ⟨h.1.symm, h.2.symm⟩
  · intro ht
    have h1 : ¬ ("manifest" = "icon") := by decide
    simp only [ht, h1, if_false, if_true] at h
    cases hm : fetchFaviconFromManifest lib fuel w (resolveUrl u link.Href) with
    | diverge => simp [hm] at h
    | panic => simp [hm] at h
    | ret v =>
      obtain ⟨⟨favicons, err⟩, w2⟩ := v
      rw [hm] at h
      cases err with
      | none =>
        simp only [Run.ret.injEq, Prod.mk.injEq] at h
        exact ⟨favicons, none, by rw [h.2], by simp [h.1]⟩
      | some e =>
        simp only [Run.ret.injEq, Prod.mk.injEq] at h
        exact ⟨favicons, some e, by rw [h.2], by simp [h.1]⟩

/-- The function `fetchLinksFromUrl` when its fetch returns an error: the
error is passed on and the working URL is not touched. -/
theorem fetchLinksFromUrl_fetch_error {σ : Type} (lib : Lib σ) (fuel : Nat) (w w1 : σ)
    (url : URL) (res : FetchResult) (e : Error)
    (hfetch : fetchUrl lib.Get fuel w (lib.str url) = Run.ret (res, w1))
    (herr : res.err = some e) :
    fetchLinksFromUrl lib fuel w url
      = Run.ret ({ links := [], err := some e, url := url }, w1) := by
  unfold fetchLinksFromUrl
  rw [hfetch]
  simp only [herr]

/-- The function `fetchLinksFromUrl` when its fetch succeeds at a URL that
differs from the string form of the working URL and parses to `p`: the
working URL is `p` on every return, and a content type other than
`text/html` is returned as an error. -/
theorem fetchLinksFromUrl_redirected {σ : Type} (lib : Lib σ) (fuel : Nat) (w w1 : σ)
    (url : URL) (res : FetchResult) (p : URL)
    (hfetch : fetchUrl lib.Get fuel w (lib.str url) = Run.ret (res, w1))
    (herr : res.err = none) (hne : lib.str url ≠ res.url)
    (hparse : lib.ParseRef url res.url = some p) :
    (∃ lr, fetchLinksFromUrl lib fuel w url = Run.ret (lr, w1) ∧ lr.url = p)
    ∧ (∀ resp ct rest, res.resp = some resp →
        stringsSplit resp.ContentType ';' = ct :: rest → ct ≠ "text/html" →
        fetchLinksFromUrl lib fuel w url
          = Run.ret ({ links := [], err := some (Error.unexpectedContentType ct), url := p },
              w1)) := by
  have hiff := fetchUrl_err_iff_no_resp lib.Get fuel w (lib.str url) res w1 hfetch
  obtain ⟨resp, hresp⟩ : ∃ resp, res.resp = some resp := by
    cases hr : res.resp with
    | none =>
      rw [herr, hr] at hiff
      simp at hiff
    | some resp => exact ⟨resp, rfl⟩
  have hunfold : fetchLinksFromUrl lib fuel w url =
      match stringsSplit resp.ContentType ';' with
      | [] => Run.panic
      | contentType0 :: _ =>
        if contentType0 ≠ "text/html" then
          Run.ret ({ links := [], err := some (Error.unexpectedContentType contentType0),
                     url := p }, w1)
        else
          match resp.Body with
          | Res.error msg =>
            Run.ret ({ links := [], err := some (Error.readBody msg), url := p }, w1)
          | Res.ok htmlContent =>
            match lib.HtmlParse htmlContent with
            | Res.error msg =>
              Run.ret ({ links := [], err := some (Error.htmlParse msg), url := p }, w1)
            | Res.ok doc =>
              Run.ret ({ links := getLinks lib.Parse p doc, err := none, url := p }, w1) := by
    unfold fetchLinksFromUrl
    rw [hfetch]
    simp only [herr, hresp, hne, ne_eq, not_false_eq_true, if_true, hparse]
  constructor
  · rw [hunfold]
    cases hs : stringsSplit resp.ContentType ';' with
    | nil => exact absurd hs (stringsSplit_ne_nil _ _)
    | cons ct rest =>
      by_cases hct : ct = "text/html"
      · simp only [hct, ne_eq, not_true_eq_false, if_false]
        cases resp.Body with
        | error msg => exact ⟨_, rfl, rfl⟩
        | ok htmlContent =>
          dsimp only
          cases lib.HtmlParse htmlContent with
          | error msg => exact ⟨_, rfl, rfl⟩
          | ok doc => exact ⟨_, rfl, rfl⟩
      · simp only [hct, ne_eq, not_false_eq_true, if_true]
        exact ⟨_, rfl, rfl⟩
  · intro resp2 ct rest hresp2 hs hct
    rw [hresp] at hresp2
    cases hresp2
    rw [hunfold, hs]
    simp only [hct, ne_eq, not_false_eq_true, if_true]

/-- The function `fetchAll` when `fetchLinksFromUrl` returns an error: it
goes on to the domain-root fetch with no icons and with the working URL as
`fetchLinksFromUrl` left it. -/
theorem fetchAll_links_error {σ : Type} (lib : Lib σ) (fuel : Nat) (w w1 : σ)
    (orig r0 : URL) (lr : LinksResult) (hparse : lib.Parse (lib.str orig) = some r0)
    (hlinks : fetchLinksFromUrl lib fuel w r0 = Run.ret (lr, w1)) (hfail : lr.err ≠ none) :
    fetchAll lib fuel w orig = fetchAllTail lib fuel orig lr.url [] w1 := by
  unfold fetchAll
  rw [hparse]
  simp only [hlinks]
  cases he : lr.err with
  | none => exact absurd he hfail
  | some e => rfl

/-- The function `fetchAll` when `fetchLinksFromUrl` returns links: the
canonical pass, the loop over the links, and the domain-root fetch. -/
theorem fetchAll_links_ok {σ : Type} (lib : Lib σ) (fuel : Nat) (w w1 : σ)
    (orig r0 : URL) (lr : LinksResult) (hparse : lib.Parse (lib.str orig) = some r0)
    (hlinks : fetchLinksFromUrl lib fuel w r0 = Run.ret (lr, w1)) (hok : lr.err = none) :
    fetchAll lib fuel w orig =
      match faviconsLoop lib fuel (canonicalLoop lib.str lr.links lr.url).1
          (canonicalLoop lib.str lr.links lr.url).2 [] w1 with
      | Run.diverge => Run.diverge
      | Run.panic => Run.panic
      | Run.ret (favicons, w2) =>
        fetchAllTail lib fuel orig (canonicalLoop lib.str lr.links lr.url).1 favicons w2 := by
  unfold fetchAll
  rw [hparse]
  simp only [hlinks, hok]

/-- The function `fetchAll` when `url.Parse(originalUrl.String())` fails:
the error is discarded, the working URL is nil, and the first use of it in
`fetchLinksFromUrl` is a nil dereference, before any request is made. -/
theorem fetchAll_parse_failure {σ : Type} (lib : Lib σ) (fuel : Nat) (w : σ) (orig : URL)
    (hparse : lib.Parse (lib.str orig) = none) :
    fetchAll lib fuel w orig = Run.panic := by
  unfold fetchAll
  rw [hparse]

/-- Whatever `fetchAll` returns, it returns no error. -/
theorem fetchAll_no_error {σ : Type} (lib : Lib σ) (fuel : Nat) (w w2 : σ) (orig : URL)
    (r : FetchAllResult) (h : fetchAll lib fuel w orig = Run.ret (r, w2)) : r.err = none := by
  cases hparse : lib.Parse (lib.str orig) with
  | none =>
    unfold fetchAll at h
    simp [hparse] at h
  | some r0 =>
    cases hlinks : fetchLinksFromUrl lib fuel w r0 with
    | diverge =>
      unfold fetchAll at h
      simp [hparse, hlinks] at h
    | panic =>
      unfold fetchAll at h
      simp [hparse, hlinks] at h
    | ret v =>
      obtain ⟨lr, w1⟩ := v
      cases he : lr.err with
      | some e =>
        rw [fetchAll_links_error lib fuel w w1 orig r0 lr hparse hlinks (by simp [he])] at h
        exact (fetchAllTail_ret lib fuel orig _ _ _ _ r h).choose_spec.2.1
      | none =>
        rw [fetchAll_links_ok lib fuel w w1 orig r0 lr hparse hlinks he] at h
        cases hloop : faviconsLoop lib fuel (canonicalLoop lib.str lr.links lr.url).1
            (canonicalLoop lib.str lr.links lr.url).2 [] w1 with
        | diverge => simp [hloop] at h
        | panic => simp [hloop] at h
        | ret v2 =>
          obtain ⟨favicons, w3⟩ := v2
          rw [hloop] at h
          exact (fetchAllTail_ret lib fuel orig _ _ _ _ r h).choose_spec.2.1

/-- C12: when `fetchLinksFromUrl` (the page fetch and the link extraction)
returns an error, the icon list built by `fetchAll` is exactly the
domain-root candidate `{scheme}://{host}/favicon.ico` of the working URL
when the fetch of that candidate ends without error, which is when its
redirect chain reaches a status in [200,300), and is empty when that fetch
ends with an error; and whatever `fetchAll` returns, for any address, it
returns no error. -/
theorem fetchAll_fallback_only {σ : Type} (lib : Lib σ) (fuel : Nat) (w w1 : σ)
    (orig r0 : URL) (lr : LinksResult) (hparse : lib.Parse (lib.str orig) = some r0)
    (hlinks : fetchLinksFromUrl lib fuel w r0 = Run.ret (lr, w1)) (hfail : lr.err ≠ none) :
    (∀ res w2, fetchUrl lib.Get fuel w1 (rootUrl lr.url) = Run.ret (res, w2) →
        ∃ r, fetchAll lib fuel w orig = Run.ret (r, w2) ∧ r.err = none
          ∧ r.redirectUrl = lr.url
          ∧ r.favicons = if res.err = none then [rootUrl lr.url] else [])
    ∧ (∀ ls u w2 final w3, Reaches lib.Get w1 (rootUrl lr.url) ls u w2 →
        lib.Get w2 u = (Res.ok final, w3) → 200 ≤ final.StatusCode →
        final.StatusCode < 300 → ls.length < fuel →
        ∃ r, fetchAll lib fuel w orig = Run.ret (r, w3) ∧ r.err = none
          ∧ r.favicons = [rootUrl lr.url])
    ∧ (∀ ls u w2 e w3, Reaches lib.Get w1 (rootUrl lr.url) ls u w2 →
        FailsAt lib.Get w2 u e w3 → ls.length < fuel →
        ∃ r, fetchAll lib fuel w orig = Run.ret (r, w3) ∧ r.err = none ∧ r.favicons = [])
    ∧ (∀ (fuel2 : Nat) (wa wb : σ) (addr : URL) (r : FetchAllResult),
        fetchAll lib fuel2 wa addr = Run.ret (r, wb) → r.err = none) := by
  have hmain : ∀ res w2, fetchUrl lib.Get fuel w1 (rootUrl lr.url) = Run.ret (res, w2) →
      ∃ r, fetchAll lib fuel w orig = Run.ret (r, w2) ∧ r.err = none
        ∧ r.redirectUrl = lr.url
        ∧ r.favicons = if res.err = none then [rootUrl lr.url] else [] := by
    intro res w2 hroot
    rw [fetchAll_links_error lib fuel w w1 orig r0 lr hparse hlinks hfail]
    obtain ⟨r, hr, h1, h2, h3⟩ := fetchAllTail_eq lib fuel orig lr.url [] w1 w2 res hroot
    exact ⟨r, hr, h1, h2, by rw [h3, List.nil_append]⟩
  refine ⟨hmain, ?_, ?_, ?_⟩
  · intro ls u w2 final w3 hreach hget h2 h3 hfuel
    obtain ⟨r, hr, h1, _, hf⟩ := hmain _ w3
      (fetchUrl_reaches_ok lib.Get w1 _ ls u w2 final w3 fuel hreach hget h2 h3 hfuel)
    exact ⟨r, hr, h1, by simpa using hf⟩
  · intro ls u w2 e w3 hreach hfails hfuel
    obtain ⟨k, rfl⟩ : ∃ k, fuel = ls.length + (k + 1) := ⟨fuel - ls.length - 1, by omega⟩
    obtain ⟨r, hr, h1, _, hf⟩ := hmain _ w3
      (fetchUrl_reaches_error lib.Get w1 _ ls u w2 e w3 k hreach hfails)
    exact ⟨r, hr, h1, by simpa using hf⟩
  · intro fuel2 wa wb addr r h
    exact fetchAll_no_error lib fuel2 wa wb addr r h

/-- In the sample network the page `https://a.com/gone` is missing and the
icon at the root of `a.com` exists, so the icon list is that candidate; the
host `c.com` cannot be reached, so the icon list for `https://c.com/` is
empty. -/
theorem fetchAll_fallback_only_witness :
    fetchLinksFromUrl sampleLib 1 0 addrGone
        = Run.ret ({ links := [],
                     err := some (Error.invalidStatus "https://a.com/gone" "404 Not Found" 404),
                     url := addrGone }, 1)
    ∧ (∃ r, fetchAll sampleLib 1 0 addrGone = Run.ret (r, 2) ∧ r.err = none
        ∧ r.redirectUrl = addrGone ∧ r.favicons = ["https://a.com/favicon.ico"])
    ∧ (∃ r, fetchAll sampleLib 1 0 addrC = Run.ret (r, 2) ∧ r.err = none
        ∧ r.redirectUrl = addrC ∧ r.favicons = []) :=
  ⟨by decide,
   (fetchAll_fallback_only sampleLib 1 0 1 addrGone addrGone
      { links := [],
        err := some (Error.invalidStatus "https://a.com/gone" "404 Not Found" 404),
        url := addrGone } (by decide) (by decide) (by decide)).1
      { url := "https://a.com/favicon.ico",
        resp := some { Status := "200 OK", StatusCode := 200, ContentType := "image/x-icon" },
        err := none } 2 (by decide),
   (fetchAll_fallback_only sampleLib 1 0 1 addrC addrC
      { links := [], err := some (Error.transport "no such host"), url := addrC }
      (by decide) (by decide) (by decide)).1
      { url := "https://c.com/favicon.ico", resp := none,
        err := some (Error.transport "no such host") } 2 (by decide)⟩

/-- C18: `fetchLinksFromUrl` is not atomic on the working URL.  When its
fetch succeeds at a final URL that differs from the string form of the
working URL and parses to `p`, the working URL is `p` when
`fetchLinksFromUrl` returns, also when it returns the error for a content
type other than `text/html`; `fetchAll` then builds the domain-root
candidate from `p`.  When the fetch returns an error, after any number of
redirects, the working URL is left as it was. -/
theorem fetchLinksFromUrl_not_atomic {σ : Type} (lib : Lib σ) (fuel : Nat) (w w1 : σ)
    (url : URL) (res : FetchResult)
    (hfetch : fetchUrl lib.Get fuel w (lib.str url) = Run.ret (res, w1)) :
    (∀ p, res.err = none → lib.str url ≠ res.url → lib.ParseRef url res.url = some p →
        (∃ lr, fetchLinksFromUrl lib fuel w url = Run.ret (lr, w1) ∧ lr.url = p)
        ∧ (∀ resp ct rest, res.resp = some resp →
            stringsSplit resp.ContentType ';' = ct :: rest → ct ≠ "text/html" →
            fetchLinksFromUrl lib fuel w url
                = Run.ret ({ links := [], err := some (Error.unexpectedContentType ct),
                             url := p }, w1)
            ∧ ∀ orig res2 w2, lib.Parse (lib.str orig) = some url →
                fetchUrl lib.Get fuel w1 (rootUrl p) = Run.ret (res2, w2) →
                ∃ r, fetchAll lib fuel w orig = Run.ret (r, w2) ∧ r.redirectUrl = p
                  ∧ r.favicons = if res2.err = none then [rootUrl p] else []))
    ∧ (∀ e, res.err = some e →
        fetchLinksFromUrl lib fuel w url
          = Run.ret ({ links := [], err := some e, url := url }, w1)) := by
  constructor
  · intro p herr hne hp
    obtain ⟨h1, h2⟩ := fetchLinksFromUrl_redirected lib fuel w w1 url res p hfetch herr hne hp
    refine ⟨h1, ?_⟩
    intro resp ct rest hresp hsplit hct
    have hl := h2 resp ct rest hresp hsplit hct
    refine ⟨hl, ?_⟩
    intro orig res2 w2 hparse hroot
    rw [fetchAll_links_error lib fuel w w1 orig url _ hparse hl (by simp)]
    obtain ⟨r, hr, _, h4, h5⟩ := fetchAllTail_eq lib fuel orig p [] w1 w2 res2 hroot
    exact ⟨r, hr, h4, by rw [h5, List.nil_append]⟩
  · intro e herr
    exact fetchLinksFromUrl_fetch_error lib fuel w w1 url res e hfetch herr

/-- In the sample network `http://a.com/j` is redirected to the JSON
document `https://a.com/manifest.json`: `fetchLinksFromUrl` returns the
content-type error with the working URL overwritten, and `fetchAll` finds
the icon at the root of the `https` URL. -/
theorem fetchLinksFromUrl_not_atomic_witness :
    fetchUrl sampleLib.Get 2 0 (sampleLib.str addrJ)
        = Run.ret ({ url := "https://a.com/manifest.json",
                     resp := some { Status := "200 OK", StatusCode := 200,
                                    ContentType := "application/json",
                                    Body := Res.ok "manifest" },
                     err := none }, 2)
    ∧ fetchLinksFromUrl sampleLib 2 0 addrJ
        = Run.ret ({ links := [], err := some (Error.unexpectedContentType "application/json"),
                     url := { Scheme := "https", Host := "a.com", Path := "/manifest.json" } },
            2)
    ∧ (∃ r, fetchAll sampleLib 2 0 addrJ = Run.ret (r, 3)
        ∧ r.redirectUrl = { Scheme := "https", Host := "a.com", Path := "/manifest.json" }
        ∧ r.favicons = ["https://a.com/favicon.ico"]) :=
  have h := ((fetchLinksFromUrl_not_atomic sampleLib 2 0 2 addrJ
      { url := "https://a.com/manifest.json",
        resp := some { Status := "200 OK", StatusCode := 200,
                       ContentType := "application/json", Body := Res.ok "manifest" },
        err := none } (by decide)).1
      { Scheme := "https", Host := "a.com", Path := "/manifest.json" } rfl (by decide)
      (by decide)).2 _ "application/json" [] rfl (by decide) (by decide)
  ⟨by decide, h.1,
   h.2 addrJ
     { url := "https://a.com/favicon.ico",
       resp := some { Status := "200 OK", StatusCode := 200, ContentType := "image/x-icon" },
       err := none } 3 (by decide) (by decide)⟩

/-- C13: when `fetchLinksFromUrl` returns links without error, the icon
list built by `fetchAll` is the concatenation, in the order of the
extracted links, of the lists `parseFavIconsFromLinks` returns for each link
after the canonical pass (one URL for an icon link, the list of the manifest
resolver, or nothing when it fails, for a manifest link, nothing for a
canonical link), followed last by the domain-root candidate exactly when the
fetch of the candidate ended without error; nothing is removed, so the
length of the list is the sum of the lengths of these lists. -/
theorem fetchAll_icon_list {σ : Type} (lib : Lib σ) (fuel : Nat) (w w1 : σ)
    (orig r0 : URL) (lr : LinksResult) (u : URL) (links : List HtmlLink)
    (hparse : lib.Parse (lib.str orig) = some r0)
    (hlinks : fetchLinksFromUrl lib fuel w r0 = Run.ret (lr, w1)) (hok : lr.err = none)
    (hcanon : canonicalLoop lib.str lr.links lr.url = (u, links)) :
    (∀ parts w2 res w3, PartsOf lib fuel u links w1 parts w2 →
        fetchUrl lib.Get fuel w2 (rootUrl u) = Run.ret (res, w3) →
        ∃ r, fetchAll lib fuel w orig = Run.ret (r, w3) ∧ r.err = none ∧ r.redirectUrl = u
          ∧ r.favicons = parts.flatten ++ (if res.err = none then [rootUrl u] else [])
          ∧ r.favicons.length
              = (parts.map List.length).sum + (if res.err = none then 1 else 0))
    ∧ (∀ r w3, fetchAll lib fuel w orig = Run.ret (r, w3) →
        ∃ parts w2 res, PartsOf lib fuel u links w1 parts w2
          ∧ fetchUrl lib.Get fuel w2 (rootUrl u) = Run.ret (res, w3)
          ∧ r.favicons = parts.flatten ++ (if res.err = none then [rootUrl u] else []))
    ∧ List.Forall₂ (fun a b => b.Typ = a.Typ ∧ (a.Typ ≠ "canonical" → b = a)) lr.links links
    ∧ (∀ (link : HtmlLink) (part : List String) (wa wb : σ),
        parseFavIconsFromLinks lib fuel wa u link = Run.ret (part, wb) →
        (link.Typ = "icon" → part = [lib.str (resolveUrl u link.Href)] ∧ wb = wa)
        ∧ (link.Typ = "canonical" → part = [] ∧ wb = wa)
        ∧ (link.Typ = "manifest" → ∃ favicons err,
            fetchFaviconFromManifest lib fuel wa (resolveUrl u link.Href)
              = Run.ret ((favicons, err), wb)
            ∧ part = if err = none then favicons else [])) := by
  have hall := fetchAll_links_ok lib fuel w w1 orig r0 lr hparse hlinks hok
  rw [hcanon] at hall
  dsimp only at hall
  refine ⟨?_, ?_, ?_, ?_⟩
  · intro parts w2 res w3 hparts hroot
    have hloop : faviconsLoop lib fuel u links [] w1 = Run.ret (parts.flatten, w2) :=
      (faviconsLoop_iff lib fuel u links [] w1 parts.flatten w2).mpr
        ⟨parts, hparts, by rw [List.nil_append]⟩
    rw [hall, hloop]
    obtain ⟨r, hr, h1, h2, h3⟩ :=
      fetchAllTail_eq lib fuel orig u parts.flatten w2 w3 res hroot
    refine ⟨r, hr, h1, h2, h3, ?_⟩
    rw [h3, List.length_append, List.length_flatten]
    by_cases he : res.err = none <;> simp [he]
  · intro r w3 h
    rw [hall] at h
    cases hloop : faviconsLoop lib fuel u links [] w1 with
    | diverge => simp [hloop] at h
    | panic => simp [hloop] at h
    | ret v =>
      obtain ⟨favicons, w2⟩ := v
      rw [hloop] at h
      obtain ⟨parts, hparts, hfs⟩ :=
        (faviconsLoop_iff lib fuel u links [] w1 favicons w2).mp hloop
      obtain ⟨res, hres, _, _, h3⟩ := fetchAllTail_ret lib fuel orig u favicons w2 w3 r h
      rw [List.nil_append] at hfs
      exact ⟨parts, w2, res, hparts, hres, by rw [h3, hfs]⟩
  · have := canonicalLoop_links lib.str lr.links lr.url
    rw [hcanon] at this
    exact this
  · intro link part wa wb h
    exact parseFavIconsFromLinks_kinds lib fuel wa wb u link part h

/-- In the sample network `http://a.com/x` is redirected to the page
`https://a.com/`, whose two icon elements and root icon give three URLs in
order; the page `https://a.com/dup` names `/favicon.ico` twice, and with the
root icon the same URL is listed three times. -/
theorem fetchAll_icon_list_witness :
    fetchLinksFromUrl sampleLib 3 0 addrX
        = Run.ret ({ links := [{ Typ := "icon", Href := { Path := "/f.png" } },
                               { Typ := "icon", Href := { Path := "/g.png" } }],
                     err := none, url := pageA }, 3)
    ∧ PartsOf sampleLib 3 pageA
        [{ Typ := "icon", Href := { Path := "/f.png" } },
         { Typ := "icon", Href := { Path := "/g.png" } }] 3
        [["https://a.com/f.png"], ["https://a.com/g.png"]] 3
    ∧ (∃ r, fetchAll sampleLib 3 0 addrX = Run.ret (r, 4) ∧ r.redirectUrl = pageA
        ∧ r.favicons
            = ["https://a.com/f.png", "https://a.com/g.png", "https://a.com/favicon.ico"])
    ∧ (∃ r, fetchAll sampleLib 1 0 addrDup = Run.ret (r, 2)
        ∧ r.favicons = ["https://a.com/favicon.ico", "https://a.com/favicon.ico",
                        "https://a.com/favicon.ico"]) :=
  have hparts : PartsOf sampleLib 3 pageA
      [{ Typ := "icon", Href := { Path := "/f.png" } },
       { Typ := "icon", Href := { Path := "/g.png" } }] 3
      [["https://a.com/f.png"], ["https://a.com/g.png"]] 3 :=
    ⟨3, by decide, 3, by decide, rfl⟩
  have hdup : PartsOf sampleLib 1 addrDup
      [{ Typ := "icon", Href := { Path := "/favicon.ico" } },
       { Typ := "icon", Href := { Path := "/favicon.ico" } }] 1
      [["https://a.com/favicon.ico"], ["https://a.com/favicon.ico"]] 1 :=
    ⟨1, by decide, 1, by decide, rfl⟩
  have h1 := (fetchAll_icon_list sampleLib 3 0 3 addrX addrX
      { links := [{ Typ := "icon", Href := { Path := "/f.png" } },
                  { Typ := "icon", Href := { Path := "/g.png" } }],
        err := none, url := pageA } pageA
      [{ Typ := "icon", Href := { Path := "/f.png" } },
       { Typ := "icon", Href := { Path := "/g.png" } }]
      (by decide) (by decide) rfl (by decide)).1 _ 3
      { url := "https://a.com/favicon.ico",
        resp := some { Status := "200 OK", StatusCode := 200, ContentType := "image/x-icon" },
        err := none } 4 hparts (by decide)
  have h2 := (fetchAll_icon_list sampleLib 1 0 1 addrDup addrDup
      { links := [{ Typ := "icon", Href := { Path := "/favicon.ico" } },
                  { Typ := "icon", Href := { Path := "/favicon.ico" } }],
        err := none, url := addrDup } addrDup
      [{ Typ := "icon", Href := { Path := "/favicon.ico" } },
       { Typ := "icon", Href := { Path := "/favicon.ico" } }]
      (by decide) (by decide) rfl (by decide)).1 _ 1
      { url := "https://a.com/favicon.ico",
        resp := some { Status := "200 OK", StatusCode := 200, ContentType := "image/x-icon" },
        err := none } 2 hdup (by decide)
  ⟨by decide, hparts,
   h1.elim fun r hr => ⟨r, hr.1, hr.2.2.1, hr.2.2.2.1⟩,
   h2.elim fun r hr => ⟨r, hr.1, hr.2.2.2.1⟩⟩

end Faviconurl
